import Mathlib

/-! # libstix2: collection registry and typed objects

A shallow embedding of `resources/collections.go`, `resources/new.go`,
`objects/grouping/model.go`, `objects/observeddata/model.go` and
`objects/properties/resolvestorefs.go`.

Conventions of the embedding.

* A Go slice is a `Slice α := Option (List α)`: `none` is the nil slice and
  `some xs` a non-nil slice with elements `xs`.  `len`, `append` and
  `make(_, 0)` are the builtins restricted to what the source uses.
* A Go `string` of the typed objects (`Grouping`, `ObservedData` and their
  property groups), which `json.Marshal` writes and `json.Unmarshal` reads
  back, is a `GoString`: a sequence of bytes that need not be valid UTF-8.
  A string literal of the source is its UTF-8 encoding.  The strings of the
  registry (package `resources`) are only written; they are held as
  `String`, Unicode text.  A Go `int` that counts or indexes is a `Nat`, the
  `int` field `NumberObserved` is an `Int` (64 bits where the range
  matters).
* A Go `error` is an `Option String`; `none` is `nil`.
* A method with a pointer receiver returns the updated receiver next to its
  Go results.
* `encoding/json` is embedded in two layers.  Each struct type has a
  `marshal` function that follows its field tags (declaration order,
  `json:"-"`, `omitempty`, promoted fields of embedded structs) and builds a
  `JSON` document; `JSON.render` is the compact text `json.Marshal` writes.
  `JSON.parse` reads a text back into a document the way the scanner and
  the literal decoding of `json.Unmarshal` do, and each typed object has an
  `unmarshal` function, `json.Unmarshal` into a zero value of the type:
  `JSON.parse`, then `decode`, which stores the members into the fields.
* A `*CollectionType` that points into a registry is a `CollectionRef`, the
  index of the element in the slice's backing array.  It is meaningful until
  the next append to that slice.
-/

set_option autoImplicit false

/-! ## Go builtins -/

/-- Go `error`: `none` is `nil`. -/
abbrev error := Option String

/-- A Go slice: `none` is the nil slice. -/
abbrev Slice (α : Type) := Option (List α)

namespace Slice

variable {α : Type}

/-- The elements of a slice, in order; the nil slice has none. -/
def toList : Slice α → List α
  | none => []
  | some xs => xs

/-- Builtin `len`: the nil slice has length 0. -/
def len (s : Slice α) : Nat := s.toList.length

/-- The test `s == nil`. -/
def isNil : Slice α → Bool
  | none => true
  | some _ => false

/-- The value of `make([]T, 0)`: a non-nil slice without elements. -/
def make0 : Slice α := some []

/-- Builtin `append(s, x)`: the result is never nil. -/
def append (s : Slice α) (x : α) : Slice α := some (s.toList ++ [x])

/-- Indexing `s[i]`, `none` when `i` is out of range. -/
def index (s : Slice α) (i : Nat) : Option α := s.toList.get? i

/-- The assignment `s[i] = x` (equally, a store through `&s[i]`). -/
def setIndex (s : Slice α) (i : Nat) (x : α) : Slice α :=
  match s with
  | none => none
  | some xs => some (xs.set i x)

end Slice

/-! ## Go strings and package `unicode/utf8`

The string fields of the typed objects are written by `json.Marshal` and read
back by `json.Unmarshal`; they are `GoString`s, byte sequences that need not
be valid UTF-8. -/

/-- A Go `string` as a sequence of bytes, not necessarily valid UTF-8. -/
abbrev GoString := List (Fin 256)

namespace utf8

/-- A byte from a natural number (reduced modulo 256). -/
def byte (n : Nat) : Fin 256 := ⟨n % 256, Nat.mod_lt _ (by decide)⟩

/-- The test for a continuation byte, `0x80 .. 0xBF`. -/
def isCont (b : Fin 256) : Bool := decide (128 ≤ b.val ∧ b.val ≤ 191)

/-- The lowest second byte accepted after the leading byte `b0` (the table
`acceptRanges` of package `utf8`). -/
def acceptLo (b0 : Nat) : Nat := if b0 = 224 then 160 else if b0 = 240 then 144 else 128

/-- The highest second byte accepted after the leading byte `b0`. -/
def acceptHi (b0 : Nat) : Nat := if b0 = 237 then 159 else if b0 = 244 then 143 else 191

/-- The rune and the size of the valid encoding at the head of a byte
sequence, `none` when the sequence is empty or does not start with a valid
encoding (the cases in which `utf8.DecodeRune` returns `RuneError` with
size 0 or 1). -/
def decodeValid (s : List (Fin 256)) : Option (Nat × Nat) :=
  match s with
  | [] => none
  | b0 :: r =>
    if b0.val < 128 then some (b0.val, 1)
    else
      match r with
      | [] => none
      | b1 :: r1 =>
        if 194 ≤ b0.val ∧ b0.val ≤ 223 then
          if isCont b1 then some ((b0.val - 192) * 64 + (b1.val - 128), 2) else none
        else
          match r1 with
          | [] => none
          | b2 :: r2 =>
            if 224 ≤ b0.val ∧ b0.val ≤ 239 then
              if acceptLo b0.val ≤ b1.val ∧ b1.val ≤ acceptHi b0.val ∧ isCont b2 then
                some ((b0.val - 224) * 4096 + (b1.val - 128) * 64 + (b2.val - 128), 3)
              else none
            else
              match r2 with
              | [] => none
              | b3 :: _ =>
                if 240 ≤ b0.val ∧ b0.val ≤ 244 ∧ acceptLo b0.val ≤ b1.val ∧
                    b1.val ≤ acceptHi b0.val ∧ isCont b2 ∧ isCont b3 then
                  some ((b0.val - 240) * 262144 + (b1.val - 128) * 4096 +
                    (b2.val - 128) * 64 + (b3.val - 128), 4)
                else none

/-- The function `utf8.DecodeRune` on a non-empty sequence: the rune and the
number of bytes it takes; an invalid encoding gives U+FFFD and size 1. -/
def DecodeRune (s : List (Fin 256)) : Char × Nat :=
  match decodeValid s with
  | some (n, k) => (Char.ofNat n, k)
  | none => (Char.ofNat 65533, 1)

/-- The runes of a string as a `range` loop and `json.Marshal` read them:
rune by rune, an invalid byte read as U+FFFD. -/
def runesAux : Nat → List (Fin 256) → List Char
  | 0, _ => []
  | fuel + 1, s =>
    match s with
    | [] => []
    | _ :: _ => (DecodeRune s).1 :: runesAux fuel (s.drop (DecodeRune s).2)

/-- The runes of a string. -/
def runes (s : GoString) : List Char := runesAux s.length s

/-- The function `utf8.ValidString`, by the same loop. -/
def validAux : Nat → List (Fin 256) → Bool
  | 0, _ => true
  | fuel + 1, s =>
    match s with
    | [] => true
    | _ :: _ =>
      match decodeValid s with
      | none => false
      | some (_, k) => validAux fuel (s.drop k)

/-- The function `utf8.ValidString`. -/
def ValidString (s : GoString) : Bool := validAux s.length s

/-- The function `utf8.AppendRune` on a rune: its UTF-8 encoding. -/
def encodeRune (c : Char) : List (Fin 256) :=
  let n := c.toNat
  if n < 128 then [byte n]
  else if n < 2048 then [byte (192 + n / 64), byte (128 + n % 64)]
  else if n < 65536 then [byte (224 + n / 4096), byte (128 + n / 64 % 64), byte (128 + n % 64)]
  else [byte (240 + n / 262144), byte (128 + n / 4096 % 64), byte (128 + n / 64 % 64),
    byte (128 + n % 64)]

/-- The UTF-8 encoding of a sequence of runes. -/
def encode (cs : List Char) : GoString := (cs.map encodeRune).flatten

end utf8

/-- The Go string of a text: its UTF-8 encoding.  It is the value of a string
literal of the source and the value `json.Unmarshal` stores for a decoded
string. -/
def GoString.ofString (s : String) : GoString := utf8.encode s.data

/-- The text `json.Marshal` writes for a Go string before escaping: its
runes, every byte that is not part of a valid encoding replaced by U+FFFD. -/
def GoString.text (s : GoString) : String := String.mk (utf8.runes s)

instance : Coe String GoString := ⟨GoString.ofString⟩

/-! ## JSON documents and the text written by `json.Marshal` -/

/-- A JSON document; the members of an object keep their order.  The last
constructor is a Go string as `json.Marshal` is given it, bytes that need not
be valid UTF-8: it occurs in the documents that `marshal` builds for the
typed objects, and never in a document read from a text. -/
inductive JSON where
  | null : JSON
  | bool : Bool → JSON
  | num : Int → JSON
  | str : String → JSON
  | arr : List JSON → JSON
  | obj : List (String × JSON) → JSON
  | gostr : GoString → JSON

namespace JSON

/-- One lower-case hexadecimal digit. -/
def hexDigit (n : Nat) : Char :=
  if n < 10 then Char.ofNat (48 + n) else Char.ofNat (87 + n)

/-- The escape of one character inside a JSON string, as `json.Marshal`
writes it (HTML escaping on): the quote and the backslash get a backslash,
line feed, carriage return and tab their short escapes, other control
characters and the characters less-than, greater-than and ampersand a
`\u00XX` escape, U+2028 and U+2029 a `\u202X` escape.  (Go 1.22 and later
write backspace and form feed as short escapes too; the Go releases of the
time of the source write them as `\u0008` and `\u000c`, as here.) -/
def escapeChar (c : Char) : List Char :=
  let n := c.toNat
  if n = 34 then [Char.ofNat 92, Char.ofNat 34]
  else if n = 92 then [Char.ofNat 92, Char.ofNat 92]
  else if n = 10 then [Char.ofNat 92, 'n']
  else if n = 13 then [Char.ofNat 92, 'r']
  else if n = 9 then [Char.ofNat 92, 't']
  else if n < 32 ∨ n = 60 ∨ n = 62 ∨ n = 38 then
    [Char.ofNat 92, 'u', '0', '0', hexDigit (n / 16), hexDigit (n % 16)]
  else if n = 8232 then [Char.ofNat 92, 'u', '2', '0', '2', '8']
  else if n = 8233 then [Char.ofNat 92, 'u', '2', '0', '2', '9']
  else [c]

/-- A JSON string literal: the escaped characters between quotes. -/
def quote (s : String) : String :=
  String.mk ([Char.ofNat 34] ++ (s.data.map escapeChar).flatten ++ [Char.ofNat 34])

/-- The escaped characters of a Go string, by the loop of the encoder over
its bytes: a rune with a valid encoding is written as `escapeChar` writes it,
a byte that is not part of a valid encoding as the six characters of the
escape `\ufffd`. -/
def escapeBytes : Nat → List (Fin 256) → List Char
  | 0, _ => []
  | fuel + 1, s =>
    match s with
    | [] => []
    | _ :: _ =>
      match utf8.decodeValid s with
      | some (n, k) => escapeChar (Char.ofNat n) ++ escapeBytes fuel (s.drop k)
      | none => [Char.ofNat 92, 'u', 'f', 'f', 'f', 'd'] ++ escapeBytes fuel (s.drop 1)

/-- The JSON string literal of a Go string. -/
def quoteGo (s : GoString) : String :=
  String.mk ([Char.ofNat 34] ++ escapeBytes s.length s ++ [Char.ofNat 34])

mutual
/-- The compact text of a document. -/
def render : JSON → String
  | null => "null"
  | bool true => "true"
  | bool false => "false"
  | num n => toString n
  | str s => quote s
  | arr xs => "[" ++ renderElems xs ++ "]"
  | obj kvs => "\x7b" ++ renderMembers kvs ++ "\x7d"
  | gostr s => quoteGo s
/-- The elements of an array, separated by commas. -/
def renderElems : List JSON → String
  | [] => ""
  | x :: xs =>
    match xs with
    | [] => render x
    | _ :: _ => render x ++ "," ++ renderElems xs
/-- The members of an object, separated by commas. -/
def renderMembers : List (String × JSON) → String
  | [] => ""
  | (k, v) :: kvs =>
    match kvs with
    | [] => quote k ++ ":" ++ render v
    | _ :: _ => quote k ++ ":" ++ render v ++ "," ++ renderMembers kvs
end

mutual
/-- The document that the text of a document denotes: a Go string becomes the
JSON string of its text, every byte that is not part of a valid encoding
replaced by U+FFFD. -/
def document : JSON → JSON
  | null => null
  | bool b => bool b
  | num n => num n
  | str s => str s
  | arr xs => arr (documentElems xs)
  | obj kvs => obj (documentMembers kvs)
  | gostr s => str s.text
/-- The function `document` on the elements of an array. -/
def documentElems : List JSON → List JSON
  | [] => []
  | x :: xs => document x :: documentElems xs
/-- The function `document` on the members of an object. -/
def documentMembers : List (String × JSON) → List (String × JSON)
  | [] => []
  | (k, v) :: kvs => (k, document v) :: documentMembers kvs
end

/-- The member names of an object, in order; other documents have none. -/
def keys : JSON → List String
  | obj kvs => kvs.map Prod.fst
  | _ => []

/-- The value of the first member named `k` of an object. -/
def member (k : String) : JSON → Option JSON
  | obj kvs => (kvs.find? (fun kv => kv.1 == k)).map Prod.snd
  | _ => none

/-- The elements of an array; other documents have none. -/
def elems : JSON → List JSON
  | arr xs => xs
  | _ => []

/-! ### Reading the text: the scanner and literal decoding of `json.Unmarshal`

The text is a `String`: `json.Marshal` writes valid UTF-8 only.  Numbers are
integer literals, the only numbers a `JSON` document holds here; a literal
with a fraction or an exponent is not read.  The recursive functions take a
bound on the number of steps, which `parse` sets from the length of the
text. -/

/-- The test for JSON white space: space, tab, line feed, carriage return. -/
def isSpace (c : Char) : Bool :=
  decide (c.toNat = 32 ∨ c.toNat = 9 ∨ c.toNat = 10 ∨ c.toNat = 13)

/-- Skipping white space. -/
def skipSpace : List Char → List Char
  | [] => []
  | c :: cs => if isSpace c then skipSpace cs else c :: cs

/-- The value of a hexadecimal digit. -/
def hexValue (c : Char) : Option Nat :=
  let n := c.toNat
  if 48 ≤ n ∧ n ≤ 57 then some (n - 48)
  else if 97 ≤ n ∧ n ≤ 102 then some (n - 87)
  else if 65 ≤ n ∧ n ≤ 70 then some (n - 55)
  else none

/-- The function `getu4` of the decoder: the number written by four
hexadecimal digits. -/
def getu4 (cs : List Char) : Option (Nat × List Char) :=
  match cs with
  | a :: b :: c :: d :: rest =>
    match hexValue a, hexValue b, hexValue c, hexValue d with
    | some x, some y, some z, some w => some (((x * 16 + y) * 16 + z) * 16 + w, rest)
    | _, _, _, _ => none
  | _ => none

/-- The rune of a `\u` escape whose number is `u`, followed by the text `r`:
a high surrogate followed by the escape of a low surrogate is the combined
rune and takes both escapes, any other surrogate is U+FFFD. -/
def escapedRune (u : Nat) (r : List Char) : Char × List Char :=
  if 55296 ≤ u ∧ u < 56320 then
    match r with
    | b :: v :: r1 =>
      if b.toNat = 92 ∧ v.toNat = 117 then
        match getu4 r1 with
        | some (u2, r2) =>
          if 56320 ≤ u2 ∧ u2 < 57344 then
            (Char.ofNat ((u - 55296) * 1024 + (u2 - 56320) + 65536), r2)
          else (Char.ofNat 65533, r)
        | none => (Char.ofNat 65533, r)
      else (Char.ofNat 65533, r)
    | _ => (Char.ofNat 65533, r)
  else if 56320 ≤ u ∧ u < 57344 then (Char.ofNat 65533, r)
  else (Char.ofNat u, r)

/-- The function `unquote` of the decoder on the characters after the opening
quote of a string literal: the characters of the string and the text after
the closing quote; `none` for a literal that is not valid (an unescaped
control character, an unknown escape, no closing quote). -/
def unquoteBody : Nat → List Char → Option (List Char × List Char)
  | 0, _ => none
  | fuel + 1, cs =>
    match cs with
    | [] => none
    | c :: r =>
      if c.toNat = 34 then some ([], r)
      else if c.toNat < 32 then none
      else if c.toNat = 92 then
        match r with
        | [] => none
        | e :: r1 =>
          let n := e.toNat
          if n = 117 then
            match getu4 r1 with
            | none => none
            | some (u, r2) =>
              (unquoteBody fuel (escapedRune u r2).2).map
                (fun p => ((escapedRune u r2).1 :: p.1, p.2))
          else
            match (if n = 34 ∨ n = 92 ∨ n = 47 then some e
                   else if n = 98 then some (Char.ofNat 8)
                   else if n = 102 then some (Char.ofNat 12)
                   else if n = 110 then some (Char.ofNat 10)
                   else if n = 114 then some (Char.ofNat 13)
                   else if n = 116 then some (Char.ofNat 9)
                   else none) with
            | none => none
            | some x => (unquoteBody fuel r1).map (fun p => (x :: p.1, p.2))
      else (unquoteBody fuel r).map (fun p => (c :: p.1, p.2))

/-- A string literal: the opening quote, then `unquoteBody`. -/
def parseString (cs : List Char) : Option (String × List Char) :=
  match cs with
  | [] => none
  | q :: r =>
    if q.toNat = 34 then (unquoteBody r.length r).map (fun p => (String.mk p.1, p.2))
    else none

/-- The test for a decimal digit. -/
def isDigit (c : Char) : Bool := decide (48 ≤ c.toNat ∧ c.toNat ≤ 57)

/-- Reading decimal digits onto an accumulated value. -/
def readDigits (acc : Nat) : List Char → Nat × List Char
  | [] => (acc, [])
  | c :: cs => if isDigit c then readDigits (acc * 10 + (c.toNat - 48)) cs else (acc, c :: cs)

/-- The end of an integer literal: a fraction, an exponent or a further digit
after it makes the literal not an integer of the grammar (`none`). -/
def endInteger (n : Nat) (r : List Char) : Option (Nat × List Char) :=
  match r with
  | [] => some (n, [])
  | d :: _ =>
    if d.toNat = 46 ∨ d.toNat = 101 ∨ d.toNat = 69 ∨ isDigit d then none else some (n, r)

/-- The digits of an integer literal: `0`, or a digit from 1 to 9 followed by
digits. -/
def parseNat (cs : List Char) : Option (Nat × List Char) :=
  match cs with
  | [] => none
  | c :: r =>
    if c.toNat = 48 then endInteger 0 r
    else if 49 ≤ c.toNat ∧ c.toNat ≤ 57 then
      endInteger (readDigits (c.toNat - 48) r).1 (readDigits (c.toNat - 48) r).2
    else none

/-- An integer literal with its optional minus sign. -/
def parseNumber (cs : List Char) : Option (JSON × List Char) :=
  match cs with
  | [] => none
  | c :: r =>
    if c.toNat = 45 then (parseNat r).map (fun p => (JSON.num (-(p.1 : Int)), p.2))
    else (parseNat cs).map (fun p => (JSON.num (p.1 : Int), p.2))

/-- The text after a literal name, `none` when the text does not start with
the name. -/
def expect : List Char → List Char → Option (List Char)
  | [], cs => some cs
  | _ :: _, [] => none
  | n :: ns, c :: cs => if n = c then expect ns cs else none

mutual
/-- A value at the head of a text: the document and the text after it. -/
def parseValue : Nat → List Char → Option (JSON × List Char)
  | 0, _ => none
  | fuel + 1, cs =>
    match cs with
    | [] => none
    | c :: r =>
      if c.toNat = 34 then (parseString cs).map (fun p => (JSON.str p.1, p.2))
      else if c.toNat = 91 then
        match skipSpace r with
        | [] => none
        | d :: r1 =>
          if d.toNat = 93 then some (JSON.arr [], r1)
          else (parseElems fuel (d :: r1)).map (fun p => (JSON.arr p.1, p.2))
      else if c.toNat = 123 then
        match skipSpace r with
        | [] => none
        | d :: r1 =>
          if d.toNat = 125 then some (JSON.obj [], r1)
          else (parseMembers fuel (d :: r1)).map (fun p => (JSON.obj p.1, p.2))
      else if c.toNat = 116 then
        (expect ['t', 'r', 'u', 'e'] cs).map (fun r1 => (JSON.bool true, r1))
      else if c.toNat = 102 then
        (expect ['f', 'a', 'l', 's', 'e'] cs).map (fun r1 => (JSON.bool false, r1))
      else if c.toNat = 110 then (expect ['n', 'u', 'l', 'l'] cs).map (fun r1 => (JSON.null, r1))
      else parseNumber cs
/-- The elements of a non-empty array up to its closing bracket. -/
def parseElems : Nat → List Char → Option (List JSON × List Char)
  | 0, _ => none
  | fuel + 1, cs =>
    match parseValue fuel cs with
    | none => none
    | some (x, r) =>
      match skipSpace r with
      | [] => none
      | d :: r1 =>
        if d.toNat = 44 then
          (parseElems fuel (skipSpace r1)).map (fun p => (x :: p.1, p.2))
        else if d.toNat = 93 then some ([x], r1)
        else none
/-- The members of a non-empty object up to its closing brace. -/
def parseMembers : Nat → List Char → Option (List (String × JSON) × List Char)
  | 0, _ => none
  | fuel + 1, cs =>
    match parseString cs with
    | none => none
    | some (k, r) =>
      match skipSpace r with
      | [] => none
      | d :: r1 =>
        if d.toNat = 58 then
          match parseValue fuel (skipSpace r1) with
          | none => none
          | some (v, r2) =>
            match skipSpace r2 with
            | [] => none
            | e :: r3 =>
              if e.toNat = 44 then
                (parseMembers fuel (skipSpace r3)).map (fun p => ((k, v) :: p.1, p.2))
              else if e.toNat = 125 then some ([(k, v)], r3)
              else none
        else none
end

/-- The document written by a text, as `json.Unmarshal` reads it: one value
with white space around it; `none` for a text that is not valid. -/
def parse (text : String) : Option JSON :=
  match parseValue (text.length + 1) (skipSpace text.data) with
  | none => none
  | some (j, rest) => if skipSpace rest = [] then some j else none

/-- A text that cannot continue a number: empty, or starting with a comma, a
closing bracket or a closing brace. -/
def Delim (rest : List Char) : Prop :=
  rest = [] ∨ ∃ c r, rest = c :: r ∧ (c.toNat = 44 ∨ c.toNat = 93 ∨ c.toNat = 125)

/-- The characters a value can start with, by code. -/
def Starts (c : Char) : Prop :=
  c.toNat = 34 ∨ c.toNat = 91 ∨ c.toNat = 123 ∨ c.toNat = 116 ∨ c.toNat = 102 ∨
    c.toNat = 110 ∨ c.toNat = 45 ∨ (48 ≤ c.toNat ∧ c.toNat ≤ 57)

end JSON

/-- A field of type `string` tagged `omitempty`: left out when empty. -/
def omitemptyString (key s : String) : List (String × JSON) :=
  if s = "" then [] else [(key, JSON.str s)]

/-- A field of type `int` tagged `omitempty`: left out when zero. -/
def omitemptyInt (key : String) (n : Int) : List (String × JSON) :=
  if n = 0 then [] else [(key, JSON.num n)]

/-- A field of type `[]string` tagged `omitempty`: left out when its length
is zero (nil or empty). -/
def omitemptyStrings (key : String) (s : Slice String) : List (String × JSON) :=
  if s.len = 0 then [] else [(key, JSON.arr (s.toList.map JSON.str))]

/-- A field of type `string` of a typed object tagged `omitempty`: left out
when its length is zero. -/
def omitemptyGoString (key : String) (s : GoString) : List (String × JSON) :=
  if s.length = 0 then [] else [(key, JSON.gostr s)]

/-- A field of type `[]string` of a typed object tagged `omitempty`: left out
when its length is zero (nil or empty). -/
def omitemptyGoStrings (key : String) (s : Slice GoString) : List (String × JSON) :=
  if s.len = 0 then [] else [(key, JSON.arr (s.toList.map JSON.gostr))]

/-! ## Package `resources/properties` -/

namespace resources

namespace properties

/-- Modelled from the spec: `resources/properties` is not part of the sources
at hand.  Section 6 gives the Collection the serialized field `id`; by
section 3 an unset field of a property group is left out of the serialized
form, and by section 8 a fresh Collection has no such member. -/
structure IDPropertyType where
  ID : String

/-- Modelled from the spec: `resources/properties` is not part of the sources
at hand.  Section 6 gives the Collection the serialized field `title`, left
out when unset (sections 3 and 8). -/
structure TitlePropertyType where
  Title : String

/-- Modelled from the spec: `resources/properties` is not part of the sources
at hand.  Section 6 gives the Collection the serialized field `description`,
left out when unset (sections 3 and 8). -/
structure DescriptionPropertyType where
  Description : String

end properties

/-! ## `resources/collections.go` -/

/-- The struct `CollectionType`; the three property structs are embedded. -/
structure CollectionType where
  DateAdded : String
  Enabled : Bool
  Hidden : Bool
  IDPropertyType : properties.IDPropertyType
  TitlePropertyType : properties.TitlePropertyType
  DescriptionPropertyType : properties.DescriptionPropertyType
  CanRead : Bool
  CanWrite : Bool
  MediaTypes : Slice String

/-- The struct `CollectionsType`. -/
structure CollectionsType where
  Collections : Slice CollectionType

/-- The struct `CollectionRecordType`. -/
structure CollectionRecordType where
  CollectionID : String
  STIXID : String

/-- The zero value of `CollectionType`, the value of `var obj CollectionType`. -/
def CollectionType.zero : CollectionType :=
  { DateAdded := "", Enabled := false, Hidden := false,
    IDPropertyType := { ID := "" }, TitlePropertyType := { Title := "" },
    DescriptionPropertyType := { Description := "" },
    CanRead := false, CanWrite := false, MediaTypes := none }

/-- The zero value of `CollectionsType`. -/
def CollectionsType.zero : CollectionsType := { Collections := none }

/-- The zero value of `CollectionRecordType`. -/
def CollectionRecordType.zero : CollectionRecordType := { CollectionID := "", STIXID := "" }

/-- The function `InitCollections`: the object behind the returned pointer. -/
def InitCollections : CollectionsType := CollectionsType.zero

/-- The function `InitCollection`: the object behind the returned pointer. -/
def InitCollection : CollectionType := CollectionType.zero

/-- The function `InitCollectionRecord`: the object behind the returned pointer. -/
def InitCollectionRecord : CollectionRecordType := CollectionRecordType.zero

/-- The function `NewCollection` of `resources/new.go`. -/
def NewCollection : CollectionType := CollectionType.zero

/-- The function `NewCollections` of `resources/new.go`. -/
def NewCollections : CollectionsType := CollectionsType.zero

/-- A `*CollectionType` into the backing array of a registry's slice. -/
structure CollectionRef where
  index : Nat

namespace CollectionsType

/-- The function `initCollectionsProperty`: a nil list becomes `make([]CollectionType, 0)`. -/
def initCollectionsProperty (ezt : CollectionsType) : CollectionsType × error :=
  let ezt := if ezt.Collections.isNil then { ezt with Collections := Slice.make0 } else ezt
  (ezt, none)

/-- The function `AddCollection`: the receiver afterwards, the position and the error. -/
def AddCollection (ezt : CollectionsType) (o : CollectionType) :
    CollectionsType × Nat × error :=
  let ezt := (ezt.initCollectionsProperty).1
  let positionThatAppendWillUse := ezt.Collections.len
  let ezt := { ezt with Collections := ezt.Collections.append o }
  (ezt, positionThatAppendWillUse, none)

/-- The function `GetNewCollection`: the receiver afterwards, the pointer
`&ezt.Collections[positionThatAppendWillUse]` and the error. -/
def GetNewCollection (ezt : CollectionsType) : CollectionsType × CollectionRef × error :=
  let ezt := (ezt.initCollectionsProperty).1
  let o := InitCollection
  let positionThatAppendWillUse := ezt.Collections.len
  let ezt := { ezt with Collections := ezt.Collections.append o }
  (ezt, { index := positionThatAppendWillUse }, none)

/-- The read `*p` of a pointer into the registry. -/
def load (ezt : CollectionsType) (p : CollectionRef) : Option CollectionType :=
  ezt.Collections.index p.index

/-- The write `*p = c` of a pointer into the registry. -/
def store (ezt : CollectionsType) (p : CollectionRef) (c : CollectionType) : CollectionsType :=
  { ezt with Collections := ezt.Collections.setIndex p.index c }

/-- The call `p.m()` of a pointer-receiver method of `CollectionType` on a
pointer into the registry: the registry afterwards and the error of `m`;
`none` when `p` points at no element. -/
def call (ezt : CollectionsType) (p : CollectionRef)
    (m : CollectionType → CollectionType × error) : Option (CollectionsType × error) :=
  match ezt.load p with
  | none => none
  | some c => some (ezt.store p (m c).1, (m c).2)

end CollectionsType

namespace CollectionType

/-- The function `SetEnabled`. -/
def SetEnabled (ezt : CollectionType) : CollectionType × error :=
  ({ ezt with Enabled := true }, none)

/-- The function `SetDisabled`. -/
def SetDisabled (ezt : CollectionType) : CollectionType × error :=
  ({ ezt with Enabled := false }, none)

/-- The function `SetHidden`. -/
def SetHidden (ezt : CollectionType) : CollectionType × error :=
  ({ ezt with Hidden := true }, none)

/-- The function `SetVisible`. -/
def SetVisible (ezt : CollectionType) : CollectionType × error :=
  ({ ezt with Hidden := false }, none)

/-- The function `SetCanRead`. -/
def SetCanRead (ezt : CollectionType) : CollectionType × error :=
  ({ ezt with CanRead := true }, none)

/-- The function `GetCanRead`. -/
def GetCanRead (ezt : CollectionType) : Bool := ezt.CanRead

/-- The function `SetCanWrite`. -/
def SetCanWrite (ezt : CollectionType) : CollectionType × error :=
  ({ ezt with CanWrite := true }, none)

/-- The function `GetCanWrite`. -/
def GetCanWrite (ezt : CollectionType) : Bool := ezt.CanWrite

/-- The function `AddMediaType`: a nil list becomes `make([]string, 0)`, then `s` is appended. -/
def AddMediaType (ezt : CollectionType) (s : String) : CollectionType × error :=
  let ezt := if ezt.MediaTypes.isNil then { ezt with MediaTypes := Slice.make0 } else ezt
  let ezt := { ezt with MediaTypes := ezt.MediaTypes.append s }
  (ezt, none)

/-- The members `json.Marshal` writes for a `CollectionType`, following the
field tags: `DateAdded`, `Enabled` and `Hidden` are tagged `json:"-"`, the
promoted `id`, `title` and `description` are left out when empty, `can_read`
and `can_write` have no `omitempty`, `media_types` has. -/
def marshalFields (c : CollectionType) : List (String × JSON) :=
  omitemptyString "id" c.IDPropertyType.ID ++
  omitemptyString "title" c.TitlePropertyType.Title ++
  omitemptyString "description" c.DescriptionPropertyType.Description ++
  [("can_read", JSON.bool c.CanRead), ("can_write", JSON.bool c.CanWrite)] ++
  omitemptyStrings "media_types" c.MediaTypes

/-- The document `json.Marshal` builds for a `CollectionType`. -/
def marshal (c : CollectionType) : JSON := JSON.obj (marshalFields c)

end CollectionType

/-- The function `NewCollectionRecord`: the object behind the returned pointer and the error. -/
def NewCollectionRecord (cid sid : String) : CollectionRecordType × error :=
  let obj := InitCollectionRecord
  let obj := { obj with CollectionID := cid }
  let obj := { obj with STIXID := sid }
  (obj, none)

namespace CollectionsType

/-- The members `json.Marshal` writes for a `CollectionsType`: `collections`
is tagged `omitempty` and left out when the list has length zero. -/
def marshalFields (ezt : CollectionsType) : List (String × JSON) :=
  if ezt.Collections.len = 0 then []
  else [("collections", JSON.arr (ezt.Collections.toList.map CollectionType.marshal))]

/-- The document `json.Marshal` builds for a `CollectionsType`. -/
def marshal (ezt : CollectionsType) : JSON := JSON.obj (marshalFields ezt)

/-- The calls `AddCollection(c)` for the `c` of a list, in order: the
registry afterwards and the position and error each call returned. -/
def addAll (ezt : CollectionsType) : List CollectionType → CollectionsType × List (Nat × error)
  | [] => (ezt, [])
  | c :: cs =>
    let r := ezt.AddCollection c
    let rest := addAll r.1 cs
    (rest.1, r.2 :: rest.2)

end CollectionsType

/-- The calls `AddMediaType(s)` for the `s` of a list, in order: the
Collection afterwards and the error each call returned. -/
def CollectionType.addMediaTypes (ezt : CollectionType) : List String → CollectionType × List error
  | [] => (ezt, [])
  | s :: ss =>
    let r := ezt.AddMediaType s
    let rest := addMediaTypes r.1 ss
    (rest.1, r.2 :: rest.2)

/-- The four flags of a Collection: Enabled, Hidden, CanRead, CanWrite. -/
def CollectionType.flags (c : CollectionType) : Bool × Bool × Bool × Bool :=
  (c.Enabled, c.Hidden, c.CanRead, c.CanWrite)

/-- The six flag setters of `CollectionType`, the transitions of the
access-policy state machine of a Collection. -/
inductive FlagSetter where
  | SetEnabled : FlagSetter
  | SetDisabled : FlagSetter
  | SetHidden : FlagSetter
  | SetVisible : FlagSetter
  | SetCanRead : FlagSetter
  | SetCanWrite : FlagSetter

/-- The call of one flag setter on a Collection: the Collection afterwards. -/
def FlagSetter.call (m : FlagSetter) (c : CollectionType) : CollectionType :=
  match m with
  | FlagSetter.SetEnabled => (c.SetEnabled).1
  | FlagSetter.SetDisabled => (c.SetDisabled).1
  | FlagSetter.SetHidden => (c.SetHidden).1
  | FlagSetter.SetVisible => (c.SetVisible).1
  | FlagSetter.SetCanRead => (c.SetCanRead).1
  | FlagSetter.SetCanWrite => (c.SetCanWrite).1

/-- The calls of a sequence of flag setters, in order. -/
def CollectionType.callSetters (c : CollectionType) : List FlagSetter → CollectionType
  | [] => c
  | m :: ms => callSetters (m.call c) ms

/-- A call of one of the two registry operations that add an entry. -/
inductive RegistryCall where
  | AddCollection : CollectionType → RegistryCall
  | GetNewCollection : RegistryCall

/-- The call of a registry operation: the registry afterwards. -/
def RegistryCall.run (k : RegistryCall) (ezt : CollectionsType) : CollectionsType :=
  match k with
  | RegistryCall.AddCollection o => (ezt.AddCollection o).1
  | RegistryCall.GetNewCollection => (ezt.GetNewCollection).1

/-- The entry a registry operation appends: the argument of `AddCollection`,
the value of `InitCollection()` for `GetNewCollection`. -/
def RegistryCall.entry (k : RegistryCall) : CollectionType :=
  match k with
  | RegistryCall.AddCollection o => o
  | RegistryCall.GetNewCollection => InitCollection

/-- The calls of a sequence of registry operations, in order. -/
def CollectionsType.runCalls (ezt : CollectionsType) : List RegistryCall → CollectionsType
  | [] => ezt
  | k :: ks => runCalls (k.run ezt) ks

end resources

/-! ## Decoding with `json.Unmarshal`

`unmarshal` of a struct type reads the text with `JSON.parse` and decodes the
document into the zero value of the type with `decode`, member by member,
the way `json.Unmarshal` does for a struct: a member is matched to a field by
its name (an exact match, else a match under case folding), a member that
matches no field is skipped, `null` leaves a string or number unchanged and
makes a slice nil, and a value of the wrong kind is an error (`none`). -/

/-- Case folding of one character of a member name: ASCII letters to upper
case, and the long s and the Kelvin sign to `S` and `K`. -/
def foldChar (c : Char) : Char :=
  let n := c.toNat
  if 97 ≤ n ∧ n ≤ 122 then Char.ofNat (n - 32)
  else if n = 383 then 'S'
  else if n = 8490 then 'K'
  else c

/-- Case folding of a member name. -/
def foldName (s : String) : List Char := s.data.map foldChar

/-- The field a member name selects among the serialized field names of a
struct: the position of an exact match, else of the first match under
folding. -/
def findField (names : List String) (key : String) : Option Nat :=
  match names.indexOf? key with
  | some i => some i
  | none => names.findIdx? (fun f => foldName f = foldName key)

/-- Decoding into a field of type `string`: the bytes of the decoded text. -/
def decodeString (v : JSON) (old : GoString) : Option GoString :=
  match v with
  | JSON.null => some old
  | JSON.str s => some (GoString.ofString s)
  | _ => none

/-- Decoding into a field of type `int` (64 bits): a number out of range is
an error. -/
def decodeInt (v : JSON) (old : Int) : Option Int :=
  match v with
  | JSON.null => some old
  | JSON.num n => if -(2:Int)^63 ≤ n ∧ n < (2:Int)^63 then some n else none
  | _ => none

/-- Decoding the elements of an array into strings, each into a fresh
element. -/
def decodeElems : List JSON → Option (List GoString)
  | [] => some []
  | x :: xs =>
    match decodeString x "", decodeElems xs with
    | some s, some ss => some (s :: ss)
    | _, _ => none

/-- Decoding into a field of type `[]string`: `null` gives the nil slice, an
array a non-nil slice of its decoded elements. -/
def decodeStrings (v : JSON) : Option (Slice GoString) :=
  match v with
  | JSON.null => some none
  | JSON.arr xs => (decodeElems xs).map some
  | _ => none

/-! ## Package `objects` and `objects/properties` -/

namespace objects

namespace properties

/-- The struct `ResolvesToRefsProperty` of `resolvestorefs.go`. -/
structure ResolvesToRefsProperty where
  ResolvesToRefs : Slice GoString

/-- The members `json.Marshal` writes for a `ResolvesToRefsProperty`. -/
def ResolvesToRefsProperty.marshalFields (p : ResolvesToRefsProperty) : List (String × JSON) :=
  omitemptyGoStrings "resolves_to_refs" p.ResolvesToRefs

/-- Modelled from the spec: the struct is not part of the sources at hand.
Section 6 gives the Grouping the inherited serialized field `name`, section 3
leaves an unset field of a property group out of the serialized form. -/
structure NameProperty where
  Name : GoString

/-- Modelled from the spec: the struct is not part of the sources at hand.
Section 6 gives the Grouping the inherited serialized field `description`. -/
structure DescriptionProperty where
  Description : GoString

/-- Modelled from the spec: the struct is not part of the sources at hand.
Section 3 describes `ObjectRefs` as an ordered sequence of object-identifier
strings, section 6 serializes it as `object_refs`. -/
structure ObjectRefsProperty where
  ObjectRefs : Slice GoString

end properties

/-- Modelled from the spec: `objects.CommonObjectProperties` is not part of
the sources at hand.  Section 3 names the base fields of every typed object:
object type name, unique identifier, spec version, created and modified
timestamps.  They are held as strings and serialized, when set, as `type`,
`id`, `spec_version`, `created` and `modified`. -/
structure CommonObjectProperties where
  ObjectType : GoString
  ID : GoString
  SpecVersion : GoString
  Created : GoString
  Modified : GoString

/-- Modelled from the spec: the identity metadata other than the kind that
construction stamps (section 4.2); the values come from collaborators outside
the core and are an argument of the constructors here. -/
structure IdentityMetadata where
  ID : GoString
  SpecVersion : GoString
  Created : GoString
  Modified : GoString

namespace CommonObjectProperties

/-- The zero value of `CommonObjectProperties`. -/
def zero : CommonObjectProperties :=
  { ObjectType := "", ID := "", SpecVersion := "", Created := "", Modified := "" }

/-- Modelled from the spec: `InitSDO` is not part of the sources at hand.
Section 4.2: the step stamps the kind string of the object and the other
universally required identity metadata; it has no error condition. -/
def InitSDO (o : CommonObjectProperties) (objectType : GoString) (env : IdentityMetadata) :
    CommonObjectProperties × error :=
  ({ o with ObjectType := objectType, ID := env.ID, SpecVersion := env.SpecVersion,
            Created := env.Created, Modified := env.Modified }, none)

/-- The serialized names of the fields, in declaration order. -/
def fieldNames : List String := ["type", "id", "spec_version", "created", "modified"]

/-- The members `json.Marshal` writes for the common properties. -/
def marshalFields (o : CommonObjectProperties) : List (String × JSON) :=
  omitemptyGoString "type" o.ObjectType ++
  omitemptyGoString "id" o.ID ++
  omitemptyGoString "spec_version" o.SpecVersion ++
  omitemptyGoString "created" o.Created ++
  omitemptyGoString "modified" o.Modified

/-- The string values of the common properties. -/
def strings (o : CommonObjectProperties) : List GoString :=
  [o.ObjectType, o.ID, o.SpecVersion, o.Created, o.Modified]

/-- Decoding a value into the field at position `i` of `fieldNames`. -/
def decodeField (o : CommonObjectProperties) (i : Nat) (v : JSON) :
    Option CommonObjectProperties :=
  match i with
  | 0 => (decodeString v o.ObjectType).map (fun s => { o with ObjectType := s })
  | 1 => (decodeString v o.ID).map (fun s => { o with ID := s })
  | 2 => (decodeString v o.SpecVersion).map (fun s => { o with SpecVersion := s })
  | 3 => (decodeString v o.Created).map (fun s => { o with Created := s })
  | 4 => (decodeString v o.Modified).map (fun s => { o with Modified := s })
  | _ => some o

end CommonObjectProperties

end objects

/-! ## `objects/grouping/model.go` -/

namespace grouping

/-- The struct `Grouping`; the first three fields are the embedded structs. -/
structure Grouping where
  CommonObjectProperties : objects.CommonObjectProperties
  NameProperty : objects.properties.NameProperty
  DescriptionProperty : objects.properties.DescriptionProperty
  Context : GoString
  ObjectRefs : Slice GoString

namespace Grouping

/-- The zero value of `Grouping`, the value of `var obj Grouping`. -/
def zero : Grouping :=
  { CommonObjectProperties := objects.CommonObjectProperties.zero,
    NameProperty := { Name := "" }, DescriptionProperty := { Description := "" },
    Context := "", ObjectRefs := none }

/-- The kind stamp of the object (the promoted field `ObjectType`). -/
def ObjectType (g : Grouping) : GoString := g.CommonObjectProperties.ObjectType

/-- The promoted method `InitSDO` on a `Grouping`. -/
def InitSDO (g : Grouping) (objectType : GoString) (env : objects.IdentityMetadata) :
    Grouping × error :=
  let r := g.CommonObjectProperties.InitSDO objectType env
  ({ g with CommonObjectProperties := r.1 }, r.2)

/-- The serialized names of the fields: the promoted fields of the embedded
structs in the order embedded, then `context` and `object_refs`. -/
def fieldNames : List String :=
  objects.CommonObjectProperties.fieldNames ++ ["name", "description", "context", "object_refs"]

/-- The members `json.Marshal` writes for a `Grouping`, in field order. -/
def marshalFields (g : Grouping) : List (String × JSON) :=
  g.CommonObjectProperties.marshalFields ++
  omitemptyGoString "name" g.NameProperty.Name ++
  omitemptyGoString "description" g.DescriptionProperty.Description ++
  omitemptyGoString "context" g.Context ++
  omitemptyGoStrings "object_refs" g.ObjectRefs

/-- The document `json.Marshal` builds for a `Grouping`. -/
def marshal (g : Grouping) : JSON := JSON.obj (marshalFields g)

/-- Decoding one member into the field its name selects. -/
def setField (g : Grouping) (key : String) (v : JSON) : Option Grouping :=
  match findField fieldNames key with
  | none => some g
  | some i =>
    if i < 5 then
      (g.CommonObjectProperties.decodeField i v).map (fun c => { g with CommonObjectProperties := c })
    else if i = 5 then
      (decodeString v g.NameProperty.Name).map (fun s => { g with NameProperty := { Name := s } })
    else if i = 6 then
      (decodeString v g.DescriptionProperty.Description).map
        (fun s => { g with DescriptionProperty := { Description := s } })
    else if i = 7 then
      (decodeString v g.Context).map (fun s => { g with Context := s })
    else
      (decodeStrings v).map (fun s => { g with ObjectRefs := s })

/-- The value decoded from a document into a zero `Grouping`. -/
def decode (j : JSON) : Option Grouping :=
  match j with
  | JSON.null => some zero
  | JSON.obj kvs => kvs.foldlM (fun g kv => setField g kv.1 kv.2) zero
  | _ => none

/-- The value `json.Unmarshal` reads from a text into a zero `Grouping`;
`none` is an error. -/
def unmarshal (data : String) : Option Grouping := (JSON.parse data).bind decode

/-- The string values of a `Grouping`: the string fields and the elements of
the reference list. -/
def strings (g : Grouping) : List GoString :=
  g.CommonObjectProperties.strings ++
    [g.NameProperty.Name, g.DescriptionProperty.Description, g.Context] ++ g.ObjectRefs.toList

end Grouping

/-- The constructor `New`: the object behind the returned pointer. -/
def New (env : objects.IdentityMetadata) : Grouping :=
  let obj := Grouping.zero
  let obj := (obj.InitSDO "grouping" env).1
  obj

end grouping

/-! ## `objects/observeddata/model.go` -/

namespace observeddata

/-- The struct `ObservedData`; the first and the last field are the embedded
structs. -/
structure ObservedData where
  CommonObjectProperties : objects.CommonObjectProperties
  FirstObserved : GoString
  LastObserved : GoString
  NumberObserved : Int
  Objects : GoString
  ObjectRefsProperty : objects.properties.ObjectRefsProperty

namespace ObservedData

/-- The zero value of `ObservedData`, the value of `var obj ObservedData`. -/
def zero : ObservedData :=
  { CommonObjectProperties := objects.CommonObjectProperties.zero,
    FirstObserved := "", LastObserved := "", NumberObserved := 0, Objects := "",
    ObjectRefsProperty := { ObjectRefs := none } }

/-- The kind stamp of the object (the promoted field `ObjectType`). -/
def ObjectType (o : ObservedData) : GoString := o.CommonObjectProperties.ObjectType

/-- The promoted method `InitSDO` on an `ObservedData`. -/
def InitSDO (o : ObservedData) (objectType : GoString) (env : objects.IdentityMetadata) :
    ObservedData × error :=
  let r := o.CommonObjectProperties.InitSDO objectType env
  ({ o with CommonObjectProperties := r.1 }, r.2)

/-- The serialized names of the fields, in field order. -/
def fieldNames : List String :=
  objects.CommonObjectProperties.fieldNames ++
    ["first_observed", "last_observed", "number_observed", "objects", "object_refs"]

/-- The members `json.Marshal` writes for an `ObservedData`, in field order. -/
def marshalFields (o : ObservedData) : List (String × JSON) :=
  o.CommonObjectProperties.marshalFields ++
  omitemptyGoString "first_observed" o.FirstObserved ++
  omitemptyGoString "last_observed" o.LastObserved ++
  omitemptyInt "number_observed" o.NumberObserved ++
  omitemptyGoString "objects" o.Objects ++
  omitemptyGoStrings "object_refs" o.ObjectRefsProperty.ObjectRefs

/-- The document `json.Marshal` builds for an `ObservedData`. -/
def marshal (o : ObservedData) : JSON := JSON.obj (marshalFields o)

/-- Decoding one member into the field its name selects. -/
def setField (o : ObservedData) (key : String) (v : JSON) : Option ObservedData :=
  match findField fieldNames key with
  | none => some o
  | some i =>
    if i < 5 then
      (o.CommonObjectProperties.decodeField i v).map (fun c => { o with CommonObjectProperties := c })
    else if i = 5 then
      (decodeString v o.FirstObserved).map (fun s => { o with FirstObserved := s })
    else if i = 6 then
      (decodeString v o.LastObserved).map (fun s => { o with LastObserved := s })
    else if i = 7 then
      (decodeInt v o.NumberObserved).map (fun n => { o with NumberObserved := n })
    else if i = 8 then
      (decodeString v o.Objects).map (fun s => { o with Objects := s })
    else
      (decodeStrings v).map (fun s => { o with ObjectRefsProperty := { ObjectRefs := s } })

/-- The value decoded from a document into a zero `ObservedData`. -/
def decode (j : JSON) : Option ObservedData :=
  match j with
  | JSON.null => some zero
  | JSON.obj kvs => kvs.foldlM (fun o kv => setField o kv.1 kv.2) zero
  | _ => none

/-- The value `json.Unmarshal` reads from a text into a zero `ObservedData`;
`none` is an error. -/
def unmarshal (data : String) : Option ObservedData := (JSON.parse data).bind decode

/-- The string values of an `ObservedData`: the string fields and the
elements of the reference list. -/
def strings (o : ObservedData) : List GoString :=
  o.CommonObjectProperties.strings ++ [o.FirstObserved, o.LastObserved, o.Objects] ++
    o.ObjectRefsProperty.ObjectRefs.toList

end ObservedData

/-- The constructor `New`: the object behind the returned pointer. -/
def New (env : objects.IdentityMetadata) : ObservedData :=
  let obj := ObservedData.zero
  let obj := (obj.InitSDO "observed-data" env).1
  obj

end observeddata

/-! ## Lemmas on the registry -/

namespace resources

theorem initCollectionsProperty_toList (ezt : CollectionsType) :
    (ezt.initCollectionsProperty).1.Collections.toList = ezt.Collections.toList := by
  cases ezt with
  | mk cs => cases cs <;> rfl

theorem AddCollection_toList (ezt : CollectionsType) (o : CollectionType) :
    (ezt.AddCollection o).1.Collections.toList = ezt.Collections.toList ++ [o] := by
  cases ezt with
  | mk cs => cases cs <;> rfl

theorem AddCollection_some (ezt : CollectionsType) (o : CollectionType) :
    (ezt.AddCollection o).1.Collections = some (ezt.Collections.toList ++ [o]) := by
  cases ezt with
  | mk cs => cases cs <;> rfl

theorem AddCollection_position (ezt : CollectionsType) (o : CollectionType) :
    (ezt.AddCollection o).2 = (ezt.Collections.len, none) := by
  cases ezt with
  | mk cs => cases cs <;> rfl

theorem GetNewCollection_some (ezt : CollectionsType) :
    (ezt.GetNewCollection).1.Collections = some (ezt.Collections.toList ++ [CollectionType.zero]) := by
  cases ezt with
  | mk cs => cases cs <;> rfl

theorem GetNewCollection_ref (ezt : CollectionsType) :
    (ezt.GetNewCollection).2 = ({ index := ezt.Collections.len }, none) := by
  cases ezt with
  | mk cs => cases cs <;> rfl

theorem addAll_toList (cs : List CollectionType) : ∀ ezt : CollectionsType,
    (ezt.addAll cs).1.Collections.toList = ezt.Collections.toList ++ cs := by
  induction cs with
  | nil => intro ezt; simp [CollectionsType.addAll]
  | cons c cs ih =>
    intro ezt
    simp [CollectionsType.addAll, ih, AddCollection_toList]

theorem addAll_results (cs : List CollectionType) : ∀ ezt : CollectionsType,
    (ezt.addAll cs).2 =
      (List.range' ezt.Collections.len cs.length).map (fun k => (k, (none : error))) := by
  induction cs with
  | nil => intro ezt; simp [CollectionsType.addAll]
  | cons c cs ih =>
    intro ezt
    simp [CollectionsType.addAll, ih, AddCollection_position, List.range'_succ, Slice.len,
      AddCollection_toList]

theorem AddMediaType_some (c : CollectionType) (s : String) :
    (c.AddMediaType s).1.MediaTypes = some (c.MediaTypes.toList ++ [s]) := by
  cases c with
  | mk d e h i t ds r w m => cases m <;> rfl

theorem AddMediaType_rest (c : CollectionType) (s : String) :
    (c.AddMediaType s).1 = { c with MediaTypes := some (c.MediaTypes.toList ++ [s]) } := by
  cases c with
  | mk d e h i t ds r w m => cases m <;> rfl

theorem addMediaTypes_toList (ss : List String) : ∀ c : CollectionType,
    (c.addMediaTypes ss).1.MediaTypes.toList = c.MediaTypes.toList ++ ss := by
  induction ss with
  | nil => intro c; simp [CollectionType.addMediaTypes]
  | cons s ss ih =>
    intro c
    simp only [CollectionType.addMediaTypes, ih, AddMediaType_some]
    simp [Slice.toList]

theorem addMediaTypes_cons_some (ss : List String) : ∀ (c : CollectionType) (s : String),
    (c.addMediaTypes (s :: ss)).1.MediaTypes = some (c.MediaTypes.toList ++ s :: ss) := by
  induction ss with
  | nil => intro c s; simp [CollectionType.addMediaTypes, AddMediaType_some]
  | cons t ss ih =>
    intro c s
    have h := ih (c.AddMediaType s).1 t
    simp only [CollectionType.addMediaTypes] at h ⊢
    rw [h, AddMediaType_some]
    simp [Slice.toList]

theorem member_can_read (c : CollectionType) :
    c.marshal.member "can_read" = some (JSON.bool c.CanRead) := by
  simp only [CollectionType.marshal, CollectionType.marshalFields, JSON.member,
    omitemptyString, omitemptyStrings]
  split_ifs <;> simp

theorem member_can_write (c : CollectionType) :
    c.marshal.member "can_write" = some (JSON.bool c.CanWrite) := by
  simp only [CollectionType.marshal, CollectionType.marshalFields, JSON.member,
    omitemptyString, omitemptyStrings]
  split_ifs <;> simp

theorem member_collections (xs : List CollectionType) (x : CollectionType) :
    ({ Collections := some (xs ++ [x]) } : CollectionsType).marshal.member "collections"
      = some (JSON.arr ((xs ++ [x]).map CollectionType.marshal)) := by
  simp [CollectionsType.marshal, CollectionsType.marshalFields, JSON.member, Slice.len,
    Slice.toList]

theorem keys_subset (c : CollectionType) :
    ∀ k ∈ c.marshal.keys,
      k ∈ ["id", "title", "description", "can_read", "can_write", "media_types"] := by
  simp only [CollectionType.marshal, CollectionType.marshalFields, JSON.keys,
    omitemptyString, omitemptyStrings]
  split_ifs <;> simp

/-! ## The claims on the registry -/

/-- C1: for every list of n Collections, the calls `AddCollection` in order
on the registry of `InitCollections` leave exactly n entries (the given ones),
and the k-th call returns index k: the returned indices are 0, 1, .., n-1,
each with a nil error. -/
theorem C1_addCollection_fresh (cs : List CollectionType) :
    (InitCollections.addAll cs).1.Collections.len = cs.length ∧
    (InitCollections.addAll cs).1.Collections.toList = cs ∧
    (InitCollections.addAll cs).2.map Prod.fst = List.range cs.length ∧
    (InitCollections.addAll cs).2 = (List.range cs.length).map (fun k => (k, none)) := by
  have h1 := addAll_toList cs InitCollections
  have h2 := addAll_results cs InitCollections
  have h0 : InitCollections.Collections.toList = [] := rfl
  have hl : InitCollections.Collections.len = 0 := rfl
  rw [h0] at h1
  rw [hl] at h2
  refine ⟨?_, by simpa using h1, ?_, ?_⟩
  · simp [Slice.len, h1]
  · rw [h2, List.map_map, List.range_eq_range']
    simp [Function.comp_def]
  · rw [h2, List.range_eq_range']

/-- C2: for every registry state, `GetNewCollection` grows the list by exactly
one entry, the entries before it are unchanged, the new entry is the zero
Collection, the returned reference points at index equal to the previous
length, which is the last entry, and it is the entry itself and not a copy:
a read through it gives the entry and a write through it changes the entry
of the registry. -/
theorem C2_getNewCollection (ezt : CollectionsType) :
    (ezt.GetNewCollection).1.Collections.len = ezt.Collections.len + 1 ∧
    (ezt.GetNewCollection).1.Collections.toList
      = ezt.Collections.toList ++ [CollectionType.zero] ∧
    CollectionType.zero
      = { DateAdded := "", Enabled := false, Hidden := false,
          IDPropertyType := { ID := "" }, TitlePropertyType := { Title := "" },
          DescriptionPropertyType := { Description := "" },
          CanRead := false, CanWrite := false, MediaTypes := none } ∧
    (ezt.GetNewCollection).2.1.index = ezt.Collections.len ∧
    (ezt.GetNewCollection).2.1.index + 1 = (ezt.GetNewCollection).1.Collections.len ∧
    (ezt.GetNewCollection).1.load (ezt.GetNewCollection).2.1 = some CollectionType.zero ∧
    ∀ c : CollectionType,
      ((ezt.GetNewCollection).1.store (ezt.GetNewCollection).2.1 c).Collections.toList
        = ezt.Collections.toList ++ [c] := by
  have h1 := GetNewCollection_some ezt
  have h2 := GetNewCollection_ref ezt
  refine ⟨?_, ?_, rfl, ?_, ?_, ?_, ?_⟩
  · simp [h1, Slice.len, Slice.toList]
  · simp [h1, Slice.toList]
  · simp [h2]
  · simp [h1, h2, Slice.len, Slice.toList]
  · simp [CollectionsType.load, h1, h2, Slice.index, Slice.len, Slice.toList]
  · intro c
    simp [CollectionsType.store, h1, h2, Slice.setIndex, Slice.len, Slice.toList]

/-- C3: for every registry state, after `GetNewCollection` and then
`SetCanRead` called through the returned reference, the serialized registry
has a `collections` member whose element at the returned index has `can_read`
true. -/
theorem C3_setCanRead_visible (ezt : CollectionsType) :
    ∃ ezt2 : CollectionsType,
      (ezt.GetNewCollection).1.call (ezt.GetNewCollection).2.1 CollectionType.SetCanRead
        = some (ezt2, none) ∧
      ((ezt2.marshal.member "collections").bind
          (fun a => a.elems.get? (ezt.GetNewCollection).2.1.index)).bind
        (JSON.member "can_read") = some (JSON.bool true) := by
  have h1 := GetNewCollection_some ezt
  have h2 := GetNewCollection_ref ezt
  refine ⟨{ Collections := some (ezt.Collections.toList ++ [(CollectionType.SetCanRead CollectionType.zero).1]) }, ?_, ?_⟩
  · simp [CollectionsType.call, CollectionsType.load, CollectionsType.store, h1, h2,
      Slice.index, Slice.setIndex, Slice.len, Slice.toList, CollectionType.SetCanRead]
  · rw [member_collections, h2]
    have hel : (JSON.arr (List.map CollectionType.marshal
        (ezt.Collections.toList ++ [CollectionType.zero.SetCanRead.1]))).elems.get?
        ezt.Collections.len = some (CollectionType.zero.SetCanRead.1).marshal := by
      simp [JSON.elems, Slice.len]
    simp only [Option.some_bind, hel, member_can_read]
    rfl

/-- C4: starting from a fresh registry, `GetNewCollection`, then `SetCanRead`
and `AddMediaType("application/stix+json;version=2.1")` through the returned
reference: the serialized registry has exactly one entry, with `can_read`
true, `can_write` false and `media_types` holding that one string. -/
theorem C4_scenario :
    ∃ ezt : CollectionsType,
      ((InitCollections.GetNewCollection).1.call (InitCollections.GetNewCollection).2.1
          CollectionType.SetCanRead).bind
        (fun r => r.1.call (InitCollections.GetNewCollection).2.1
          (fun c => c.AddMediaType "application/stix+json;version=2.1"))
        = some (ezt, none) ∧
      ezt.marshal = JSON.obj [("collections", JSON.arr [JSON.obj
        [("can_read", JSON.bool true), ("can_write", JSON.bool false),
         ("media_types", JSON.arr [JSON.str "application/stix+json;version=2.1"])]])] ∧
      ezt.marshal.render =
        "\x7b\"collections\":[\x7b\"can_read\":true,\"can_write\":false,\"media_types\":[\"application/stix+json;version=2.1\"]\x7d]\x7d" :=
  ⟨{ Collections := some [{ CollectionType.zero with
        CanRead := true, MediaTypes := some ["application/stix+json;version=2.1"] }] },
    rfl, rfl, by decide⟩

/-- C5: for every Collection the serialized form has the members `can_read`
and `can_write`, holding the two flags, also when they are false; a freshly
constructed Collection serializes to exactly
`{"can_read":false,"can_write":false}`. -/
theorem C5_can_read_can_write_present (c : CollectionType) :
    "can_read" ∈ c.marshal.keys ∧ "can_write" ∈ c.marshal.keys ∧
    c.marshal.member "can_read" = some (JSON.bool c.CanRead) ∧
    c.marshal.member "can_write" = some (JSON.bool c.CanWrite) ∧
    InitCollection.marshal
      = JSON.obj [("can_read", JSON.bool false), ("can_write", JSON.bool false)] ∧
    InitCollection.marshal.render = "\x7b\"can_read\":false,\"can_write\":false\x7d" ∧
    NewCollection.marshal.render = "\x7b\"can_read\":false,\"can_write\":false\x7d" := by
  refine ⟨?_, ?_, member_can_read c, member_can_write c, rfl, by decide, by decide⟩
  · simp [CollectionType.marshal, CollectionType.marshalFields, JSON.keys]
  · simp [CollectionType.marshal, CollectionType.marshalFields, JSON.keys]

/-- C6: for every list of strings, the calls `AddMediaType` in order on a
fresh Collection yield `MediaTypes` with exactly these strings in call order,
duplicates kept (a non-nil list as soon as one string was added);
`AddMediaType("application/json")` twice gives the string twice. -/
theorem C6_addMediaType_order (ss : List String) :
    (InitCollection.addMediaTypes ss).1.MediaTypes.toList = ss ∧
    (∀ s : String, (InitCollection.addMediaTypes (s :: ss)).1.MediaTypes = some (s :: ss)) ∧
    ((InitCollection.AddMediaType "application/json").1.AddMediaType
        "application/json").1.MediaTypes
      = some ["application/json", "application/json"] := by
  refine ⟨?_, ?_, rfl⟩
  · have h := addMediaTypes_toList ss InitCollection
    have h0 : InitCollection.MediaTypes.toList = [] := rfl
    rw [h0] at h
    simpa using h
  · intro s
    have h := addMediaTypes_cons_some ss InitCollection s
    have h0 : InitCollection.MediaTypes.toList = [] := rfl
    rw [h0] at h
    simpa using h

/-- C9: two Collections that agree on ID, Title, Description, CanRead,
CanWrite and MediaTypes have the same serialized form, whatever their
DateAdded, Enabled and Hidden are, and every member name of the serialized
form is one of `id`, `title`, `description`, `can_read`, `can_write`,
`media_types`: none of the three fields appears as a key. -/
theorem C9_policy_metadata_hidden (c1 c2 : CollectionType)
    (hid : c1.IDPropertyType.ID = c2.IDPropertyType.ID)
    (htitle : c1.TitlePropertyType.Title = c2.TitlePropertyType.Title)
    (hdesc : c1.DescriptionPropertyType.Description = c2.DescriptionPropertyType.Description)
    (hread : c1.CanRead = c2.CanRead) (hwrite : c1.CanWrite = c2.CanWrite)
    (hmedia : c1.MediaTypes = c2.MediaTypes) :
    c1.marshal = c2.marshal ∧ c1.marshal.render = c2.marshal.render ∧
    (∀ k ∈ c1.marshal.keys,
      k ∈ ["id", "title", "description", "can_read", "can_write", "media_types"]) ∧
    (∀ k ∈ ["DateAdded", "Enabled", "Hidden", "date_added", "enabled", "hidden"],
      k ∉ c1.marshal.keys) := by
  have h : c1.marshal = c2.marshal := by
    simp [CollectionType.marshal, CollectionType.marshalFields, hid, htitle, hdesc, hread,
      hwrite, hmedia]
  refine ⟨h, by rw [h], keys_subset c1, ?_⟩
  intro k hk hmem
  have hin := keys_subset c1 k hmem
  revert hk hin
  simp only [List.mem_cons, List.mem_singleton, List.not_mem_nil, or_false]
  rintro (h | h | h | h | h | h) <;> subst h <;> decide

/-- Witness of C9: two Collections that differ in DateAdded, Enabled and
Hidden only. -/
theorem C9_policy_metadata_hidden_witness :
    ({ CollectionType.zero with
        DateAdded := "2020-01-01", Enabled := true, Hidden := true, CanRead := true } : CollectionType).marshal
      = ({ CollectionType.zero with CanRead := true } : CollectionType).marshal ∧
    ({ CollectionType.zero with
        DateAdded := "2020-01-01", Enabled := true, Hidden := true, CanRead := true } : CollectionType).marshal.render
      = "\x7b\"can_read\":true,\"can_write\":false\x7d" :=
  ⟨(C9_policy_metadata_hidden
      { CollectionType.zero with
        DateAdded := "2020-01-01", Enabled := true, Hidden := true, CanRead := true }
      { CollectionType.zero with CanRead := true } rfl rfl rfl rfl rfl rfl).1, by decide⟩

/-- C10: every operation that returns an error returns nil, for every input
and every receiver state, the nil-list registry and Collection included. -/
theorem C10_no_error :
    (∀ (ezt : CollectionsType) (o : CollectionType), (ezt.AddCollection o).2.2 = none) ∧
    (∀ ezt : CollectionsType, (ezt.GetNewCollection).2.2 = none) ∧
    (∀ ezt : CollectionsType, (ezt.initCollectionsProperty).2 = none) ∧
    (∀ c : CollectionType, (c.SetEnabled).2 = none ∧ (c.SetDisabled).2 = none ∧
      (c.SetHidden).2 = none ∧ (c.SetVisible).2 = none ∧ (c.SetCanRead).2 = none ∧
      (c.SetCanWrite).2 = none) ∧
    (∀ (c : CollectionType) (s : String), (c.AddMediaType s).2 = none) ∧
    (∀ cid sid : String, (NewCollectionRecord cid sid).2 = none) ∧
    (∀ o : CollectionType,
      (({ Collections := none } : CollectionsType).AddCollection o).2.2 = none) ∧
    (({ Collections := none } : CollectionsType).GetNewCollection).2.2 = none ∧
    (∀ s : String, (CollectionType.zero.AddMediaType s).2 = none) :=
  ⟨fun _ _ => rfl, fun _ => rfl, fun _ => rfl, fun _ => ⟨rfl, rfl, rfl, rfl, rfl, rfl⟩,
    fun _ _ => rfl, fun _ _ => rfl, fun _ => rfl, rfl, fun _ => rfl⟩

end resources

/-! ## The claims on the typed objects -/

/-- C7: for both typed object kinds of the repository the constructor `New`
yields an object whose kind stamp is the canonical kind string, `grouping`
for a Grouping and `observed-data` for an ObservedData, and the stamp is not
empty. -/
theorem C7_new_stamps_kind (env : objects.IdentityMetadata) :
    (grouping.New env).ObjectType = "grouping" ∧
    (observeddata.New env).ObjectType = "observed-data" ∧
    (grouping.New env).ObjectType ≠ "" ∧ (observeddata.New env).ObjectType ≠ "" :=
  ⟨rfl, rfl,
    by rw [show (grouping.New env).ObjectType = "grouping" from rfl]; decide,
    by rw [show (observeddata.New env).ObjectType = "observed-data" from rfl]; decide⟩

/-! ## UTF-8: encoding the runes of a valid string gives the string back -/

theorem toNat_ofNat_of_lt (n : Nat) (h : n < 55296 ∨ (57343 < n ∧ n < 1114112)) :
    (Char.ofNat n).toNat = n := by
  have hv : n.isValidChar := h
  simp only [Char.ofNat, hv, dite_true]
  rfl

theorem byte_eq (x : Nat) (b : Fin 256) (h : x = b.val) : utf8.byte x = b := by
  apply Fin.ext
  have := b.isLt
  simp only [utf8.byte]
  omega

theorem acceptLo_le (b0 b1 : Nat) (h : utf8.acceptLo b0 ≤ b1) :
    128 ≤ b1 ∧ (b0 = 224 → 160 ≤ b1) ∧ (b0 = 240 → 144 ≤ b1) := by
  unfold utf8.acceptLo at h
  split_ifs at h <;> omega

theorem le_acceptHi (b0 b1 : Nat) (h : b1 ≤ utf8.acceptHi b0) :
    b1 ≤ 191 ∧ (b0 = 237 → b1 ≤ 159) ∧ (b0 = 244 → b1 ≤ 143) := by
  unfold utf8.acceptHi at h
  split_ifs at h <;> omega

theorem isCont_iff (b : Fin 256) : utf8.isCont b = true ↔ 128 ≤ b.val ∧ b.val ≤ 191 := by
  simp [utf8.isCont]

theorem encodeRune_decodeValid (s : List (Fin 256)) (n k : Nat)
    (h : utf8.decodeValid s = some (n, k)) :
    utf8.encodeRune (Char.ofNat n) = s.take k ∧ 1 ≤ k ∧ k ≤ s.length := by
  match s with
  | [] => simp [utf8.decodeValid] at h
  | b0 :: r =>
    have hb0 := b0.isLt
    simp only [utf8.decodeValid] at h
    by_cases h0 : b0.val < 128
    · rw [if_pos h0] at h
      obtain ⟨rfl, rfl⟩ := Prod.mk.inj (Option.some.inj h)
      rw [utf8.encodeRune, toNat_ofNat_of_lt _ (by omega)]
      simp only [h0, if_true]
      refine ⟨?_, by simp, by simp⟩
      simp only [List.take_succ_cons, List.take_zero, List.cons.injEq, and_true]
      exact byte_eq _ _ rfl
    · rw [if_neg h0] at h
      match r with
      | [] => simp at h
      | b1 :: r1 =>
        have hb1 := b1.isLt
        simp only at h
        by_cases h2 : 194 ≤ b0.val ∧ b0.val ≤ 223
        · rw [if_pos h2] at h
          by_cases hc : utf8.isCont b1 = true
          · rw [if_pos hc] at h
            obtain ⟨rfl, rfl⟩ := Prod.mk.inj (Option.some.inj h)
            rw [isCont_iff] at hc
            rw [utf8.encodeRune, toNat_ofNat_of_lt _ (by omega)]
            rw [if_neg (by omega), if_pos (by omega)]
            refine ⟨?_, by simp, by simp⟩
            simp only [List.take_succ_cons, List.take_zero, List.cons.injEq, and_true]
            exact ⟨byte_eq _ _ (by omega), byte_eq _ _ (by omega)⟩
          · rw [if_neg hc] at h
            simp at h
        · rw [if_neg h2] at h
          match r1 with
          | [] => simp at h
          | b2 :: r2 =>
            have hb2 := b2.isLt
            simp only at h
            by_cases h3 : 224 ≤ b0.val ∧ b0.val ≤ 239
            · rw [if_pos h3] at h
              by_cases hc : utf8.acceptLo b0.val ≤ b1.val ∧ b1.val ≤ utf8.acceptHi b0.val ∧
                  utf8.isCont b2 = true
              · rw [if_pos hc] at h
                obtain ⟨rfl, rfl⟩ := Prod.mk.inj (Option.some.inj h)
                obtain ⟨hlo, hhi, hc2⟩ := hc
                have hlo := acceptLo_le _ _ hlo
                have hhi := le_acceptHi _ _ hhi
                rw [isCont_iff] at hc2
                rw [utf8.encodeRune, toNat_ofNat_of_lt _ (by omega)]
                rw [if_neg (by omega), if_neg (by omega), if_pos (by omega)]
                refine ⟨?_, by simp, by simp⟩
                simp only [List.take_succ_cons, List.take_zero, List.cons.injEq, and_true]
                exact ⟨byte_eq _ _ (by omega), byte_eq _ _ (by omega), byte_eq _ _ (by omega)⟩
              · rw [if_neg hc] at h
                simp at h
            · rw [if_neg h3] at h
              match r2 with
              | [] => simp at h
              | b3 :: r3 =>
                have hb3 := b3.isLt
                simp only at h
                by_cases hc : 240 ≤ b0.val ∧ b0.val ≤ 244 ∧ utf8.acceptLo b0.val ≤ b1.val ∧
                    b1.val ≤ utf8.acceptHi b0.val ∧ utf8.isCont b2 = true ∧
                    utf8.isCont b3 = true
                · rw [if_pos hc] at h
                  obtain ⟨rfl, rfl⟩ := Prod.mk.inj (Option.some.inj h)
                  obtain ⟨h4, h5, hlo, hhi, hc2, hc3⟩ := hc
                  have hlo := acceptLo_le _ _ hlo
                  have hhi := le_acceptHi _ _ hhi
                  rw [isCont_iff] at hc2 hc3
                  rw [utf8.encodeRune, toNat_ofNat_of_lt _ (by omega)]
                  rw [if_neg (by omega), if_neg (by omega), if_neg (by omega)]
                  refine ⟨?_, by simp, by simp⟩
                  simp only [List.take_succ_cons, List.take_zero, List.cons.injEq, and_true]
                  exact ⟨byte_eq _ _ (by omega), byte_eq _ _ (by omega),
                    byte_eq _ _ (by omega), byte_eq _ _ (by omega)⟩
                · rw [if_neg hc] at h
                  simp at h

theorem encode_cons (c : Char) (cs : List Char) :
    utf8.encode (c :: cs) = utf8.encodeRune c ++ utf8.encode cs := by
  simp [utf8.encode]

theorem encode_runesAux (fuel : Nat) : ∀ s : List (Fin 256), s.length ≤ fuel →
    utf8.validAux fuel s = true → utf8.encode (utf8.runesAux fuel s) = s := by
  induction fuel with
  | zero =>
    intro s hl _
    have : s = [] := List.length_eq_zero.mp (Nat.le_zero.mp hl)
    subst this
    rfl
  | succ fuel ih =>
    intro s hl hv
    match s with
    | [] => rfl
    | b :: t =>
      simp only [utf8.validAux] at hv
      cases hd : utf8.decodeValid (b :: t) with
      | none => rw [hd] at hv; exact absurd hv (by simp)
      | some p =>
        obtain ⟨n, k⟩ := p
        rw [hd] at hv
        simp only at hv
        obtain ⟨he, hk1, hk2⟩ := encodeRune_decodeValid _ _ _ hd
        have hD : utf8.DecodeRune (b :: t) = (Char.ofNat n, k) := by
          simp [utf8.DecodeRune, hd]
        simp only [utf8.runesAux, hD]
        rw [encode_cons, he, ih _ (by simp only [List.length_drop]; omega) hv]
        exact List.take_append_drop k (b :: t)

theorem encode_runes (s : GoString) (h : utf8.ValidString s = true) :
    utf8.encode (utf8.runes s) = s :=
  encode_runesAux s.length s (le_refl _) h

theorem ofString_text (s : GoString) (h : utf8.ValidString s = true) :
    GoString.ofString s.text = s :=
  encode_runes s h

/-! ## Reading back the text that `JSON.render` writes -/

namespace JSON

theorem ofNat_toNat_eq (c : Char) (n : Nat) (h : c.toNat = n) : Char.ofNat n = c := by
  rw [← h]; exact Char.ofNat_toNat c

theorem hexValue_hexDigit (d : Nat) (h : d < 16) : hexValue (hexDigit d) = some d := by
  interval_cases d <;> rfl

theorem escapedRune_plain (u : Nat) (r : List Char) (h : u < 55296) :
    escapedRune u r = (Char.ofNat u, r) := by
  unfold escapedRune
  rw [if_neg (by omega), if_neg (by omega)]

theorem unquoteBody_step (c : Char) (fuel : Nat) (tail : List Char) :
    unquoteBody (fuel + 1) (escapeChar c ++ tail)
      = (unquoteBody fuel tail).map (fun p => (c :: p.1, p.2)) := by
  simp only [escapeChar]
  split_ifs with h1 h2 h3 h4 h5 h6 h7 h8
  · rw [← ofNat_toNat_eq c 34 h1]; rfl
  · rw [← ofNat_toNat_eq c 92 h2]; rfl
  · rw [← ofNat_toNat_eq c 10 h3]; rfl
  · rw [← ofNat_toNat_eq c 13 h4]; rfl
  · rw [← ofNat_toNat_eq c 9 h5]; rfl
  · have hg : getu4 ('0' :: '0' :: hexDigit (c.toNat / 16) :: hexDigit (c.toNat % 16) :: tail)
          = some (c.toNat, tail) := by
        simp only [getu4, hexValue_hexDigit _ (show c.toNat / 16 < 16 by omega),
          hexValue_hexDigit _ (show c.toNat % 16 < 16 by omega)]
        have h0 : hexValue '0' = some 0 := rfl
        simp only [h0]
        congr 2
        omega
    have e92 : (Char.ofNat 92).toNat = 92 := rfl
    have eu : ('u' : Char).toNat = 117 := rfl
    simp only [List.cons_append, List.nil_append, unquoteBody, e92, eu, hg,
      escapedRune_plain _ _ (show c.toNat < 55296 by omega), Char.ofNat_toNat]
    simp
  · rw [← ofNat_toNat_eq c 8232 h7]; rfl
  · rw [← ofNat_toNat_eq c 8233 h8]; rfl
  · have hc : ¬ c.toNat < 32 := by omega
    simp only [List.cons_append, List.nil_append, unquoteBody, h1, h2, hc, if_false]

theorem unquoteBody_escape (s : List Char) : ∀ (fuel : Nat) (rest : List Char),
    s.length < fuel →
    unquoteBody fuel ((s.map escapeChar).flatten ++ Char.ofNat 34 :: rest) = some (s, rest) := by
  induction s with
  | nil =>
    intro fuel rest h
    obtain ⟨f, rfl⟩ : ∃ f, fuel = f + 1 := ⟨fuel - 1, by simp at h; omega⟩
    rfl
  | cons c s ih =>
    intro fuel rest h
    obtain ⟨f, rfl⟩ : ∃ f, fuel = f + 1 := ⟨fuel - 1, by simp at h; omega⟩
    have hf : s.length < f := by simp at h; omega
    rw [List.map_cons, List.flatten_cons, List.append_assoc, unquoteBody_step, ih f rest hf]
    rfl

theorem length_le_escape (s : List Char) : s.length ≤ ((s.map escapeChar).flatten).length := by
  induction s with
  | nil => simp
  | cons c s ih =>
    have h : 1 ≤ (escapeChar c).length := by
      simp only [escapeChar]
      split_ifs <;> simp
    simp only [List.map_cons, List.flatten_cons, List.length_append, List.length_cons]
    omega

theorem parseString_quote (s : String) (rest : List Char) :
    parseString ((quote s).data ++ rest) = some (s, rest) := by
  have h := length_le_escape s.data
  simp only [quote, List.cons_append, List.nil_append, List.append_assoc, parseString]
  rw [if_pos (show (Char.ofNat 34).toNat = 34 from rfl),
    unquoteBody_escape s.data _ rest (by rw [List.length_append, List.length_cons]; omega)]
  rfl

theorem unquoteBody_replacement (fuel : Nat) (tail : List Char) :
    unquoteBody (fuel + 1) ([Char.ofNat 92, 'u', 'f', 'f', 'f', 'd'] ++ tail)
      = (unquoteBody fuel tail).map (fun p => (Char.ofNat 65533 :: p.1, p.2)) := rfl

theorem length_escapeChar (c : Char) : 1 ≤ (escapeChar c).length := by
  simp only [escapeChar]
  split_ifs <;> simp

theorem length_runesAux_le (fuel : Nat) : ∀ s : List (Fin 256),
    (utf8.runesAux fuel s).length ≤ (escapeBytes fuel s).length := by
  induction fuel with
  | zero => intro s; simp [utf8.runesAux, escapeBytes]
  | succ fuel ih =>
    intro s
    match s with
    | [] => simp [utf8.runesAux, escapeBytes]
    | b :: t =>
      cases hd : utf8.decodeValid (b :: t) with
      | none =>
        have h := ih ((b :: t).drop 1)
        simp only [utf8.runesAux, escapeBytes, utf8.DecodeRune, hd, List.length_cons,
          List.length_append] at h ⊢
        omega
      | some p =>
        obtain ⟨n, k⟩ := p
        have h := ih ((b :: t).drop k)
        have h1 := length_escapeChar (Char.ofNat n)
        simp only [utf8.runesAux, escapeBytes, utf8.DecodeRune, hd, List.length_cons,
          List.length_append] at h ⊢
        omega

theorem unquoteBody_escapeBytes (fuel : Nat) : ∀ (s : List (Fin 256)) (fuel2 : Nat)
    (rest : List Char), (utf8.runesAux fuel s).length < fuel2 →
    unquoteBody fuel2 (escapeBytes fuel s ++ Char.ofNat 34 :: rest)
      = some (utf8.runesAux fuel s, rest) := by
  induction fuel with
  | zero =>
    intro s fuel2 rest h
    obtain ⟨f, rfl⟩ : ∃ f, fuel2 = f + 1 := ⟨fuel2 - 1, by omega⟩
    rfl
  | succ fuel ih =>
    intro s fuel2 rest h
    obtain ⟨f, rfl⟩ : ∃ f, fuel2 = f + 1 := ⟨fuel2 - 1, by omega⟩
    match s with
    | [] => rfl
    | b :: t =>
      cases hd : utf8.decodeValid (b :: t) with
      | none =>
        simp only [utf8.runesAux, escapeBytes, utf8.DecodeRune, hd, List.length_cons] at h ⊢
        rw [List.append_assoc, unquoteBody_replacement, ih _ f rest (by omega)]
        rfl
      | some p =>
        obtain ⟨n, k⟩ := p
        simp only [utf8.runesAux, escapeBytes, utf8.DecodeRune, hd, List.length_cons] at h ⊢
        rw [List.append_assoc, unquoteBody_step, ih _ f rest (by omega)]
        rfl

theorem parseString_quoteGo (s : GoString) (rest : List Char) :
    parseString ((quoteGo s).data ++ rest) = some (s.text, rest) := by
  have h := length_runesAux_le s.length s
  simp only [quoteGo, List.cons_append, List.nil_append, List.append_assoc, parseString]
  rw [if_pos (show (Char.ofNat 34).toNat = 34 from rfl),
    unquoteBody_escapeBytes s.length s _ rest
      (by rw [List.length_append, List.length_cons]; omega)]
  rfl

theorem digitChar_toNat (d : Nat) (h : d < 10) : (Nat.digitChar d).toNat = 48 + d := by
  interval_cases d <;> rfl

theorem readDigits_append (l : List Char) (hl : ∀ c ∈ l, isDigit c = true) :
    ∀ (acc : Nat) (rest : List Char), Delim rest →
    readDigits acc (l ++ rest)
      = (l.foldl (fun a c => a * 10 + (c.toNat - 48)) acc, rest) := by
  induction l with
  | nil =>
    intro acc rest hd
    rcases hd with rfl | ⟨c, r, rfl, hc⟩
    · rfl
    · have : isDigit c = false := by
        simp only [isDigit, decide_eq_false_iff_not]
        omega
      simp [readDigits, this]
  | cons c l ih =>
    intro acc rest hd
    have hc : isDigit c = true := hl c (List.mem_cons_self _ _)
    simp only [List.cons_append, readDigits, hc, if_true, List.foldl_cons]
    exact ih (fun x hx => hl x (List.mem_cons_of_mem _ hx)) _ rest hd

theorem toDigitsCore_digits (fuel : Nat) : ∀ (n : Nat) (ds : List Char),
    (∀ c ∈ ds, isDigit c = true) → ∀ c ∈ Nat.toDigitsCore 10 fuel n ds, isDigit c = true := by
  induction fuel with
  | zero => intro n ds h; simpa [Nat.toDigitsCore] using h
  | succ fuel ih =>
    intro n ds h
    have hd : isDigit (Nat.digitChar (n % 10)) = true := by
      simp only [isDigit, decide_eq_true_eq, digitChar_toNat _ (Nat.mod_lt n (by decide))]
      omega
    have h2 : ∀ c ∈ Nat.digitChar (n % 10) :: ds, isDigit c = true := by
      intro c hc
      rcases List.mem_cons.mp hc with rfl | hc
      · exact hd
      · exact h c hc
    rw [Nat.toDigitsCore.eq_2]
    split_ifs
    · exact h2
    · exact ih _ _ h2

theorem toDigitsCore_value (fuel : Nat) : ∀ (n : Nat) (ds : List Char), n < fuel →
    (Nat.toDigitsCore 10 fuel n ds).foldl (fun a c => a * 10 + (c.toNat - 48)) 0
      = ds.foldl (fun a c => a * 10 + (c.toNat - 48)) n := by
  induction fuel with
  | zero => intro n ds h; omega
  | succ fuel ih =>
    intro n ds h
    rw [Nat.toDigitsCore.eq_2]
    split_ifs with h0
    · simp only [List.foldl_cons, digitChar_toNat _ (Nat.mod_lt n (by decide))]
      congr 1
      omega
    · rw [ih _ _ (by omega)]
      simp only [List.foldl_cons, digitChar_toNat _ (Nat.mod_lt n (by decide))]
      congr 1
      omega

theorem toDigitsCore_head (fuel : Nat) : ∀ (n : Nat) (ds : List Char), n < fuel → 0 < n →
    ∃ c l, Nat.toDigitsCore 10 fuel n ds = c :: l ∧ 49 ≤ c.toNat ∧ c.toNat ≤ 57 := by
  induction fuel with
  | zero => intro n ds h; omega
  | succ fuel ih =>
    intro n ds h hn
    rw [Nat.toDigitsCore.eq_2]
    split_ifs with h0
    · refine ⟨_, _, rfl, ?_⟩
      rw [digitChar_toNat _ (Nat.mod_lt n (by decide))]
      omega
    · exact ih _ _ (by omega) (by omega)

theorem parseNat_repr (n : Nat) (rest : List Char) (hd : Delim rest) :
    parseNat ((Nat.repr n).data ++ rest) = some (n, rest) := by
  have hE : ∀ m : Nat, endInteger m rest = some (m, rest) := by
    intro m
    rcases hd with rfl | ⟨c, r, rfl, hc⟩
    · rfl
    · simp only [endInteger, isDigit, decide_eq_true_eq]
      rw [if_neg (by omega)]
  show parseNat (Nat.toDigitsCore 10 (n + 1) n [] ++ rest) = some (n, rest)
  have hdig := toDigitsCore_digits (n + 1) n [] (by simp)
  have hval := toDigitsCore_value (n + 1) n [] (by omega)
  rcases Nat.eq_zero_or_pos n with rfl | hn
  · exact hE 0
  · obtain ⟨c, l, hcl, h1, h2⟩ := toDigitsCore_head (n + 1) n [] (by omega) hn
    rw [hcl] at hdig hval ⊢
    simp only [List.cons_append, parseNat]
    rw [if_neg (by omega), if_pos ⟨h1, h2⟩,
      readDigits_append l (fun x hx => hdig x (List.mem_cons_of_mem _ hx)) _ rest hd]
    simp only [List.foldl_cons, List.foldl_nil, Nat.zero_mul, Nat.zero_add] at hval
    simp only [hval]
    exact hE n

theorem repr_head (n : Nat) :
    ∃ c l, (Nat.repr n).data = c :: l ∧ 48 ≤ c.toNat ∧ c.toNat ≤ 57 := by
  rcases Nat.eq_zero_or_pos n with rfl | hn
  · exact ⟨'0', [], rfl, by decide, by decide⟩
  · obtain ⟨c, l, hcl, h1, h2⟩ := toDigitsCore_head (n + 1) n [] (by omega) hn
    exact ⟨c, l, hcl, by omega, h2⟩

theorem parseNumber_toString (i : Int) (rest : List Char) (hd : Delim rest) :
    parseNumber ((toString i).data ++ rest) = some (JSON.num i, rest) := by
  cases i with
  | ofNat n =>
    show parseNumber ((Nat.repr n).data ++ rest) = _
    have h := parseNat_repr n rest hd
    have hne : ∃ c l, (Nat.repr n).data ++ rest = c :: l ∧ 48 ≤ c.toNat ∧ c.toNat ≤ 57 := by
      obtain ⟨c, l, hcl, h1, h2⟩ := repr_head n
      exact ⟨c, l ++ rest, by rw [hcl]; rfl, h1, h2⟩
    obtain ⟨c, l, hcl, h1, h2⟩ := hne
    rw [hcl] at h ⊢
    simp only [parseNumber]
    rw [if_neg (by omega), h]
    rfl
  | negSucc n =>
    show parseNumber (('-' :: (Nat.repr (n + 1)).data) ++ rest) = _
    simp only [List.cons_append, parseNumber]
    rw [if_pos (show ('-' : Char).toNat = 45 from rfl), parseNat_repr _ rest hd]
    rfl

theorem data_arr (xs : List JSON) :
    (render (arr xs)).data = '[' :: ((renderElems xs).data ++ [']']) := by
  simp [render, String.data_append]

theorem data_obj (kvs : List (String × JSON)) :
    (render (obj kvs)).data = Char.ofNat 123 :: ((renderMembers kvs).data ++ [Char.ofNat 125]) := by
  simp [render, String.data_append]

theorem data_elems_one (x : JSON) : (renderElems [x]).data = (render x).data := by
  simp [renderElems]

theorem data_elems_more (x y : JSON) (ys : List JSON) :
    (renderElems (x :: y :: ys)).data
      = (render x).data ++ ',' :: (renderElems (y :: ys)).data := by
  simp [renderElems, String.data_append]

theorem data_members_one (k : String) (v : JSON) :
    (renderMembers [(k, v)]).data = (quote k).data ++ ':' :: (render v).data := by
  simp [renderMembers, String.data_append]

theorem data_members_more (k : String) (v : JSON) (kv : String × JSON)
    (kvs : List (String × JSON)) :
    (renderMembers ((k, v) :: kv :: kvs)).data
      = (quote k).data ++ ':' :: ((render v).data ++ ',' :: (renderMembers (kv :: kvs)).data) := by
  simp [renderMembers, String.data_append]

theorem data_quote (s : String) :
    (quote s).data = Char.ofNat 34 :: ((s.data.map escapeChar).flatten ++ [Char.ofNat 34]) := by
  simp [quote]

theorem data_quoteGo (s : GoString) :
    (quoteGo s).data = Char.ofNat 34 :: (escapeBytes s.length s ++ [Char.ofNat 34]) := by
  simp [quoteGo]

theorem toString_head (i : Int) :
    ∃ c l, (toString i).data = c :: l ∧ (c.toNat = 45 ∨ (48 ≤ c.toNat ∧ c.toNat ≤ 57)) := by
  cases i with
  | ofNat n =>
    obtain ⟨c, l, hcl, h1, h2⟩ := repr_head n
    exact ⟨c, l, hcl, Or.inr ⟨h1, h2⟩⟩
  | negSucc n => exact ⟨'-', (Nat.repr (n + 1)).data, rfl, Or.inl rfl⟩

theorem render_head (j : JSON) : ∃ c l, (render j).data = c :: l ∧ Starts c := by
  cases j with
  | null => exact ⟨'n', ['u', 'l', 'l'], rfl, by unfold Starts; decide⟩
  | bool b =>
    cases b
    · exact ⟨'f', ['a', 'l', 's', 'e'], rfl, by unfold Starts; decide⟩
    · exact ⟨'t', ['r', 'u', 'e'], rfl, by unfold Starts; decide⟩
  | num n =>
    obtain ⟨c, l, hcl, h⟩ := toString_head n
    refine ⟨c, l, hcl, ?_⟩
    unfold Starts
    omega
  | str s => exact ⟨_, _, data_quote s, by unfold Starts; decide⟩
  | arr xs => exact ⟨_, _, data_arr xs, by unfold Starts; decide⟩
  | obj kvs => exact ⟨_, _, data_obj kvs, by unfold Starts; decide⟩
  | gostr s => exact ⟨_, _, data_quoteGo s, by unfold Starts; decide⟩

theorem skipSpace_cons (c : Char) (r : List Char)
    (h : c.toNat ≠ 32 ∧ c.toNat ≠ 9 ∧ c.toNat ≠ 10 ∧ c.toNat ≠ 13) :
    skipSpace (c :: r) = c :: r := by
  have : isSpace c = false := by
    simp only [isSpace, decide_eq_false_iff_not]
    omega
  simp [skipSpace, this]

theorem Starts.skip {c : Char} (h : Starts c) (r : List Char) :
    skipSpace (c :: r) = c :: r := by
  apply skipSpace_cons
  unfold Starts at h
  omega

mutual
theorem parseValue_render (j : JSON) (fuel : Nat) (rest : List Char) (hd : Delim rest)
    (hf : (render j).data.length < fuel) :
    parseValue fuel ((render j).data ++ rest) = some (document j, rest) := by
  obtain ⟨f, rfl⟩ : ∃ f, fuel = f + 1 := ⟨fuel - 1, by omega⟩
  match j with
  | null => rfl
  | bool true => rfl
  | bool false => rfl
  | num n =>
    obtain ⟨c, l, hcl, h⟩ := toString_head n
    have hp := parseNumber_toString n rest hd
    have hr : (render (num n)).data = (toString n).data := rfl
    rw [hr]
    rw [hcl] at hp ⊢
    simp only [List.cons_append, parseValue] at hp ⊢
    rw [if_neg (by omega), if_neg (by omega), if_neg (by omega), if_neg (by omega),
      if_neg (by omega), if_neg (by omega)]
    exact hp
  | gostr s =>
    have hp := parseString_quoteGo s rest
    rw [show (render (gostr s)).data = (quoteGo s).data from rfl]
    rw [data_quoteGo] at hp ⊢
    simp only [List.cons_append, parseValue] at hp ⊢
    rw [if_pos (show (Char.ofNat 34).toNat = 34 from rfl), hp]
    rfl
  | str s =>
    have hp := parseString_quote s rest
    rw [show (render (str s)).data = (quote s).data from rfl]
    rw [data_quote] at hp ⊢
    simp only [List.cons_append, parseValue] at hp ⊢
    rw [if_pos (show (Char.ofNat 34).toNat = 34 from rfl), hp]
    rfl
  | arr [] => rfl
  | arr (x :: xs) =>
    have he := parseElems_render (x :: xs) f rest (by simp)
      (by rw [data_arr] at hf
          simp only [List.length_append, List.length_cons, List.length_nil] at hf; omega)
    obtain ⟨c, l, hcl, hs⟩ := render_head x
    have hcl2 : ∃ l2, (renderElems (x :: xs)).data = c :: l2 := by
      cases xs with
      | nil => exact ⟨l, by rw [data_elems_one, hcl]⟩
      | cons y ys => exact ⟨_, by rw [data_elems_more, hcl]; rfl⟩
    obtain ⟨l2, hl2⟩ := hcl2
    rw [data_arr]
    rw [hl2] at he ⊢
    simp only [List.cons_append, List.append_assoc, List.nil_append, parseValue] at he ⊢
    rw [if_neg (by decide), if_pos (by decide), hs.skip]
    simp only []
    rw [if_neg (by unfold Starts at hs; omega), he]
    rfl
  | obj [] => rfl
  | obj ((k, v) :: kvs) =>
    have he := parseMembers_render ((k, v) :: kvs) f rest (by simp)
      (by rw [data_obj] at hf
          simp only [List.length_append, List.length_cons, List.length_nil] at hf; omega)
    have hcl2 : ∃ l2, (renderMembers ((k, v) :: kvs)).data = Char.ofNat 34 :: l2 := by
      cases kvs with
      | nil => exact ⟨_, by rw [data_members_one, data_quote]; rfl⟩
      | cons y ys => exact ⟨_, by rw [data_members_more, data_quote]; rfl⟩
    obtain ⟨l2, hl2⟩ := hcl2
    rw [data_obj]
    rw [hl2] at he ⊢
    simp only [List.cons_append, List.append_assoc, List.nil_append, parseValue] at he ⊢
    rw [if_neg (by decide), if_neg (by decide), if_pos (by decide),
      skipSpace_cons _ _ (by decide)]
    simp only []
    rw [if_neg (by decide), he]
    rfl
theorem parseElems_render (xs : List JSON) (fuel : Nat) (rest : List Char) (hne : xs ≠ [])
    (hf : (renderElems xs).data.length + 1 < fuel) :
    parseElems fuel ((renderElems xs).data ++ Char.ofNat 93 :: rest)
      = some (documentElems xs, rest) := by
  obtain ⟨f, rfl⟩ : ∃ f, fuel = f + 1 := ⟨fuel - 1, by omega⟩
  match xs with
  | [] => exact absurd rfl hne
  | [x] =>
    rw [data_elems_one] at hf ⊢
    have hv := parseValue_render x f (Char.ofNat 93 :: rest)
      (Or.inr ⟨_, _, rfl, Or.inr (Or.inl rfl)⟩) (by omega)
    simp only [parseElems, hv]
    rw [skipSpace_cons _ _ (by decide)]
    simp only []
    rw [if_neg (by decide), if_pos (by decide)]
    rfl
  | x :: y :: ys =>
    rw [data_elems_more] at hf ⊢
    obtain ⟨c, l, hcl, hs⟩ := render_head x
    have hx1 : 1 ≤ (render x).data.length := by rw [hcl]; simp only [List.length_cons]; omega
    have hv := parseValue_render x f
      (',' :: ((renderElems (y :: ys)).data ++ Char.ofNat 93 :: rest))
      (Or.inr ⟨_, _, rfl, Or.inl rfl⟩)
      (by simp only [List.length_append, List.length_cons] at hf; omega)
    have he := parseElems_render (y :: ys) f rest (by simp)
      (by simp only [List.length_append, List.length_cons] at hf; omega)
    obtain ⟨c2, l2, hcl2, hs2⟩ := render_head y
    have hcl3 : ∃ l3, (renderElems (y :: ys)).data = c2 :: l3 := by
      cases ys with
      | nil => exact ⟨l2, by rw [data_elems_one, hcl2]⟩
      | cons z zs => exact ⟨_, by rw [data_elems_more, hcl2]; rfl⟩
    obtain ⟨l3, hl3⟩ := hcl3
    simp only [List.append_assoc, List.cons_append, parseElems, hv]
    rw [skipSpace_cons _ _ (by decide)]
    simp only []
    rw [if_pos (by decide)]
    rw [hl3] at he ⊢
    simp only [List.cons_append] at he ⊢
    rw [hs2.skip, he]
    rfl
theorem parseMembers_render (kvs : List (String × JSON)) (fuel : Nat) (rest : List Char)
    (hne : kvs ≠ []) (hf : (renderMembers kvs).data.length + 1 < fuel) :
    parseMembers fuel ((renderMembers kvs).data ++ Char.ofNat 125 :: rest)
      = some (documentMembers kvs, rest) := by
  obtain ⟨f, rfl⟩ : ∃ f, fuel = f + 1 := ⟨fuel - 1, by omega⟩
  match kvs with
  | [] => exact absurd rfl hne
  | [(k, v)] =>
    obtain ⟨c, l, hcl, hs⟩ := render_head v
    rw [data_members_one] at hf ⊢
    have hv := parseValue_render v f (Char.ofNat 125 :: rest)
      (Or.inr ⟨_, _, rfl, Or.inr (Or.inr rfl)⟩)
      (by simp only [List.length_append, List.length_cons] at hf; omega)
    simp only [List.append_assoc, List.cons_append, parseMembers, parseString_quote]
    rw [skipSpace_cons _ _ (by decide)]
    simp only []
    rw [if_pos (by decide)]
    rw [hcl] at hv ⊢
    simp only [List.cons_append] at hv ⊢
    rw [hs.skip, hv]
    simp only []
    rw [skipSpace_cons _ _ (by decide)]
    simp only []
    rw [if_neg (by decide), if_pos (by decide)]
    rfl
  | (k, v) :: (k2, v2) :: kvs2 =>
    obtain ⟨c, l, hcl, hs⟩ := render_head v
    rw [data_members_more] at hf ⊢
    have hv := parseValue_render v f
      (',' :: ((renderMembers ((k2, v2) :: kvs2)).data ++ Char.ofNat 125 :: rest))
      (Or.inr ⟨_, _, rfl, Or.inl rfl⟩)
      (by simp only [List.length_append, List.length_cons] at hf; omega)
    have he := parseMembers_render ((k2, v2) :: kvs2) f rest (by simp)
      (by simp only [List.length_append, List.length_cons] at hf; omega)
    have hcl3 : ∃ l3, (renderMembers ((k2, v2) :: kvs2)).data = Char.ofNat 34 :: l3 := by
      cases kvs2 with
      | nil => exact ⟨_, by rw [data_members_one, data_quote]; rfl⟩
      | cons z zs => exact ⟨_, by rw [data_members_more, data_quote]; rfl⟩
    obtain ⟨l3, hl3⟩ := hcl3
    simp only [List.append_assoc, List.cons_append, parseMembers, parseString_quote]
    rw [skipSpace_cons _ _ (by decide)]
    simp only []
    rw [if_pos (by decide)]
    rw [hcl] at hv ⊢
    simp only [List.cons_append] at hv ⊢
    rw [hs.skip, hv]
    simp only []
    rw [skipSpace_cons _ _ (by decide)]
    simp only []
    rw [if_pos (by decide)]
    rw [hl3] at he ⊢
    simp only [List.cons_append] at he ⊢
    rw [skipSpace_cons _ _ (by decide), he]
    rfl
end

theorem parse_render (j : JSON) : parse (render j) = some (document j) := by
  obtain ⟨c, l, hcl, hs⟩ := render_head j
  have h := parseValue_render j ((render j).length + 1) [] (Or.inl rfl)
    (by show (render j).data.length < (render j).data.length + 1; omega)
  rw [List.append_nil] at h
  unfold parse
  rw [hcl, hs.skip, ← hcl, h]
  rfl

end JSON

/-! ## Round trip through the serialized text -/

theorem decodeElems_map_str (xs : List GoString)
    (h : ∀ s ∈ xs, utf8.ValidString s = true) :
    decodeElems (xs.map (fun x => JSON.str x.text)) = some xs := by
  induction xs with
  | nil => rfl
  | cons x xs ih =>
    simp [decodeElems, decodeString, ih (fun s hs => h s (List.mem_cons_of_mem _ hs)),
      ofString_text x (h x (List.mem_cons_self _ _))]

theorem mem_keys_omitemptyGoString (k key : String) (s : GoString) :
    k ∈ (omitemptyGoString key s).map Prod.fst ↔ k = key ∧ s ≠ GoString.ofString "" := by
  have e : GoString.ofString "" = [] := rfl
  unfold omitemptyGoString
  split_ifs with h
  · simp [e, List.length_eq_zero.mp h]
  · have hne : s ≠ [] := fun h2 => h (by rw [h2]; rfl)
    simp [e, hne]

theorem mem_keys_omitemptyInt (k key : String) (n : Int) :
    k ∈ (omitemptyInt key n).map Prod.fst ↔ k = key ∧ n ≠ 0 := by
  unfold omitemptyInt
  split_ifs with h <;> simp [h]

theorem mem_keys_omitemptyGoStrings (k key : String) (s : Slice GoString) :
    k ∈ (omitemptyGoStrings key s).map Prod.fst ↔ k = key ∧ s.len ≠ 0 := by
  unfold omitemptyGoStrings
  split_ifs with h <;> simp [h]

theorem foldlM_append_some {σ β : Type} (f : σ → β → Option σ) (l1 l2 : List β) (a b c : σ)
    (h1 : l1.foldlM f a = some b) (h2 : l2.foldlM f b = some c) :
    (l1 ++ l2).foldlM f a = some c := by
  rw [List.foldlM_append, h1]
  exact h2

theorem documentMembers_append (l1 l2 : List (String × JSON)) :
    JSON.documentMembers (l1 ++ l2) = JSON.documentMembers l1 ++ JSON.documentMembers l2 := by
  induction l1 with
  | nil => rfl
  | cons kv l1 ih =>
    obtain ⟨k, v⟩ := kv
    simp [JSON.documentMembers, ih]

theorem documentElems_gostr (xs : List GoString) :
    JSON.documentElems (xs.map JSON.gostr) = xs.map (fun x => JSON.str x.text) := by
  induction xs with
  | nil => rfl
  | cons x xs ih => simp [JSON.documentElems, JSON.document, ih]

theorem foldlM_omitemptyGoString {σ : Type} (f : σ → String × JSON → Option σ) (a b : σ)
    (key : String) (s : GoString) (h0 : s = [] → b = a)
    (h1 : f a (key, JSON.str s.text) = some b) :
    (JSON.documentMembers (omitemptyGoString key s)).foldlM f a = some b := by
  unfold omitemptyGoString
  split_ifs with h
  · simp [JSON.documentMembers, h0 (List.length_eq_zero.mp h)]
  · simp [JSON.documentMembers, JSON.document, h1]

theorem foldlM_omitemptyInt {σ : Type} (f : σ → String × JSON → Option σ) (a b : σ)
    (key : String) (n : Int) (h0 : n = 0 → b = a) (h1 : f a (key, JSON.num n) = some b) :
    (JSON.documentMembers (omitemptyInt key n)).foldlM f a = some b := by
  unfold omitemptyInt
  split_ifs with h
  · simp [JSON.documentMembers, h0 h]
  · simp [JSON.documentMembers, JSON.document, h1]

theorem foldlM_omitemptyGoStrings {σ : Type} (f : σ → String × JSON → Option σ) (a b : σ)
    (key : String) (s : Slice GoString) (h0 : s.len = 0 → b = a)
    (h1 : s.len ≠ 0 → f a (key, JSON.arr (s.toList.map (fun x => JSON.str x.text))) = some b) :
    (JSON.documentMembers (omitemptyGoStrings key s)).foldlM f a = some b := by
  unfold omitemptyGoStrings
  split_ifs with h
  · simp [JSON.documentMembers, h0 h]
  · simp [JSON.documentMembers, JSON.document, documentElems_gostr, h1 h]

namespace grouping

theorem grouping_decode_marshal (g : Grouping)
    (hv : ∀ s ∈ g.strings, utf8.ValidString s = true) :
    Grouping.decode g.marshal.document
      = some { g with ObjectRefs := if g.ObjectRefs.len = 0 then none else g.ObjectRefs } := by
  obtain ⟨⟨ty, id, sv, cr, mo⟩, ⟨nm⟩, ⟨ds⟩, cx, refs⟩ := g
  have vty := ofString_text ty
    (hv ty (by simp [Grouping.strings, objects.CommonObjectProperties.strings]))
  have vid := ofString_text id
    (hv id (by simp [Grouping.strings, objects.CommonObjectProperties.strings]))
  have vsv := ofString_text sv
    (hv sv (by simp [Grouping.strings, objects.CommonObjectProperties.strings]))
  have vcr := ofString_text cr
    (hv cr (by simp [Grouping.strings, objects.CommonObjectProperties.strings]))
  have vmo := ofString_text mo
    (hv mo (by simp [Grouping.strings, objects.CommonObjectProperties.strings]))
  have vnm := ofString_text nm
    (hv nm (by simp [Grouping.strings, objects.CommonObjectProperties.strings]))
  have vds := ofString_text ds
    (hv ds (by simp [Grouping.strings, objects.CommonObjectProperties.strings]))
  have vcx := ofString_text cx
    (hv cx (by simp [Grouping.strings, objects.CommonObjectProperties.strings]))
  have vrefs : ∀ s ∈ refs.toList, utf8.ValidString s = true := fun s hs =>
    hv s (by simp [Grouping.strings, objects.CommonObjectProperties.strings, hs])
  have k0 : findField Grouping.fieldNames "type" = some 0 := by decide
  have k1 : findField Grouping.fieldNames "id" = some 1 := by decide
  have k2 : findField Grouping.fieldNames "spec_version" = some 2 := by decide
  have k3 : findField Grouping.fieldNames "created" = some 3 := by decide
  have k4 : findField Grouping.fieldNames "modified" = some 4 := by decide
  have k5 : findField Grouping.fieldNames "name" = some 5 := by decide
  have k6 : findField Grouping.fieldNames "description" = some 6 := by decide
  have k7 : findField Grouping.fieldNames "context" = some 7 := by decide
  have k8 : findField Grouping.fieldNames "object_refs" = some 8 := by decide
  simp only [Grouping.decode, Grouping.marshal, Grouping.marshalFields,
    objects.CommonObjectProperties.marshalFields, Grouping.zero,
    objects.CommonObjectProperties.zero, JSON.document, documentMembers_append]
  refine foldlM_append_some _ _ _ _ ⟨⟨ty, id, sv, cr, mo⟩, ⟨nm⟩, ⟨ds⟩, cx, none⟩ _ ?_ ?_
  refine foldlM_append_some _ _ _ _ ⟨⟨ty, id, sv, cr, mo⟩, ⟨nm⟩, ⟨ds⟩, "", none⟩ _ ?_ ?_
  refine foldlM_append_some _ _ _ _ ⟨⟨ty, id, sv, cr, mo⟩, ⟨nm⟩, ⟨""⟩, "", none⟩ _ ?_ ?_
  refine foldlM_append_some _ _ _ _ ⟨⟨ty, id, sv, cr, mo⟩, ⟨""⟩, ⟨""⟩, "", none⟩ _ ?_ ?_
  refine foldlM_append_some _ _ _ _ ⟨⟨ty, id, sv, cr, ""⟩, ⟨""⟩, ⟨""⟩, "", none⟩ _ ?_ ?_
  refine foldlM_append_some _ _ _ _ ⟨⟨ty, id, sv, "", ""⟩, ⟨""⟩, ⟨""⟩, "", none⟩ _ ?_ ?_
  refine foldlM_append_some _ _ _ _ ⟨⟨ty, id, "", "", ""⟩, ⟨""⟩, ⟨""⟩, "", none⟩ _ ?_ ?_
  refine foldlM_append_some _ _ _ _ ⟨⟨ty, "", "", "", ""⟩, ⟨""⟩, ⟨""⟩, "", none⟩ _ ?_ ?_
  · exact foldlM_omitemptyGoString _ _ _ _ _ (by rintro rfl; rfl)
      (by simp [Grouping.setField, k0, objects.CommonObjectProperties.decodeField,
        decodeString, vty, vid, vsv, vcr, vmo, vnm, vds, vcx])
  · exact foldlM_omitemptyGoString _ _ _ _ _ (by rintro rfl; rfl)
      (by simp [Grouping.setField, k1, objects.CommonObjectProperties.decodeField,
        decodeString, vty, vid, vsv, vcr, vmo, vnm, vds, vcx])
  · exact foldlM_omitemptyGoString _ _ _ _ _ (by rintro rfl; rfl)
      (by simp [Grouping.setField, k2, objects.CommonObjectProperties.decodeField,
        decodeString, vty, vid, vsv, vcr, vmo, vnm, vds, vcx])
  · exact foldlM_omitemptyGoString _ _ _ _ _ (by rintro rfl; rfl)
      (by simp [Grouping.setField, k3, objects.CommonObjectProperties.decodeField,
        decodeString, vty, vid, vsv, vcr, vmo, vnm, vds, vcx])
  · exact foldlM_omitemptyGoString _ _ _ _ _ (by rintro rfl; rfl)
      (by simp [Grouping.setField, k4, objects.CommonObjectProperties.decodeField,
        decodeString, vty, vid, vsv, vcr, vmo, vnm, vds, vcx])
  · exact foldlM_omitemptyGoString _ _ _ _ _ (by rintro rfl; rfl)
      (by simp [Grouping.setField, k5, decodeString, vty, vid, vsv, vcr, vmo, vnm, vds, vcx])
  · exact foldlM_omitemptyGoString _ _ _ _ _ (by rintro rfl; rfl)
      (by simp [Grouping.setField, k6, decodeString, vty, vid, vsv, vcr, vmo, vnm, vds, vcx])
  · exact foldlM_omitemptyGoString _ _ _ _ _ (by rintro rfl; rfl)
      (by simp [Grouping.setField, k7, decodeString, vty, vid, vsv, vcr, vmo, vnm, vds, vcx])
  · refine foldlM_omitemptyGoStrings _ _ _ _ _ (by intro h; simp [h]) ?_
    intro h
    cases refs with
    | none => exact absurd rfl h
    | some xs =>
      simp [Grouping.setField, k8, decodeStrings, decodeElems_map_str xs vrefs, h, Slice.toList]

end grouping

namespace observeddata

theorem observeddata_decode_marshal (o : ObservedData)
    (hv : ∀ s ∈ o.strings, utf8.ValidString s = true)
    (hint : -(2:Int)^63 ≤ o.NumberObserved ∧ o.NumberObserved < (2:Int)^63) :
    ObservedData.decode o.marshal.document
      = some { o with ObjectRefsProperty :=
          { ObjectRefs := if o.ObjectRefsProperty.ObjectRefs.len = 0 then none
                          else o.ObjectRefsProperty.ObjectRefs } } := by
  obtain ⟨⟨ty, id, sv, cr, mo⟩, fo, lo, no, ob, ⟨refs⟩⟩ := o
  have vty := ofString_text ty
    (hv ty (by simp [ObservedData.strings, objects.CommonObjectProperties.strings]))
  have vid := ofString_text id
    (hv id (by simp [ObservedData.strings, objects.CommonObjectProperties.strings]))
  have vsv := ofString_text sv
    (hv sv (by simp [ObservedData.strings, objects.CommonObjectProperties.strings]))
  have vcr := ofString_text cr
    (hv cr (by simp [ObservedData.strings, objects.CommonObjectProperties.strings]))
  have vmo := ofString_text mo
    (hv mo (by simp [ObservedData.strings, objects.CommonObjectProperties.strings]))
  have vfo := ofString_text fo
    (hv fo (by simp [ObservedData.strings, objects.CommonObjectProperties.strings]))
  have vlo := ofString_text lo
    (hv lo (by simp [ObservedData.strings, objects.CommonObjectProperties.strings]))
  have vob := ofString_text ob
    (hv ob (by simp [ObservedData.strings, objects.CommonObjectProperties.strings]))
  have vrefs : ∀ s ∈ refs.toList, utf8.ValidString s = true := fun s hs =>
    hv s (by simp [ObservedData.strings, objects.CommonObjectProperties.strings, hs])
  have k0 : findField ObservedData.fieldNames "type" = some 0 := by decide
  have k1 : findField ObservedData.fieldNames "id" = some 1 := by decide
  have k2 : findField ObservedData.fieldNames "spec_version" = some 2 := by decide
  have k3 : findField ObservedData.fieldNames "created" = some 3 := by decide
  have k4 : findField ObservedData.fieldNames "modified" = some 4 := by decide
  have k5 : findField ObservedData.fieldNames "first_observed" = some 5 := by decide
  have k6 : findField ObservedData.fieldNames "last_observed" = some 6 := by decide
  have k7 : findField ObservedData.fieldNames "number_observed" = some 7 := by decide
  have k8 : findField ObservedData.fieldNames "objects" = some 8 := by decide
  have k9 : findField ObservedData.fieldNames "object_refs" = some 9 := by decide
  simp only [ObservedData.decode, ObservedData.marshal, ObservedData.marshalFields,
    objects.CommonObjectProperties.marshalFields, ObservedData.zero,
    objects.CommonObjectProperties.zero, JSON.document, documentMembers_append]
  refine foldlM_append_some _ _ _ _ ⟨⟨ty, id, sv, cr, mo⟩, fo, lo, no, ob, ⟨none⟩⟩ _ ?_ ?_
  refine foldlM_append_some _ _ _ _ ⟨⟨ty, id, sv, cr, mo⟩, fo, lo, no, "", ⟨none⟩⟩ _ ?_ ?_
  refine foldlM_append_some _ _ _ _ ⟨⟨ty, id, sv, cr, mo⟩, fo, lo, 0, "", ⟨none⟩⟩ _ ?_ ?_
  refine foldlM_append_some _ _ _ _ ⟨⟨ty, id, sv, cr, mo⟩, fo, "", 0, "", ⟨none⟩⟩ _ ?_ ?_
  refine foldlM_append_some _ _ _ _ ⟨⟨ty, id, sv, cr, mo⟩, "", "", 0, "", ⟨none⟩⟩ _ ?_ ?_
  refine foldlM_append_some _ _ _ _ ⟨⟨ty, id, sv, cr, ""⟩, "", "", 0, "", ⟨none⟩⟩ _ ?_ ?_
  refine foldlM_append_some _ _ _ _ ⟨⟨ty, id, sv, "", ""⟩, "", "", 0, "", ⟨none⟩⟩ _ ?_ ?_
  refine foldlM_append_some _ _ _ _ ⟨⟨ty, id, "", "", ""⟩, "", "", 0, "", ⟨none⟩⟩ _ ?_ ?_
  refine foldlM_append_some _ _ _ _ ⟨⟨ty, "", "", "", ""⟩, "", "", 0, "", ⟨none⟩⟩ _ ?_ ?_
  · exact foldlM_omitemptyGoString _ _ _ _ _ (by rintro rfl; rfl)
      (by simp [ObservedData.setField, k0, objects.CommonObjectProperties.decodeField,
        decodeString, vty, vid, vsv, vcr, vmo, vfo, vlo, vob])
  · exact foldlM_omitemptyGoString _ _ _ _ _ (by rintro rfl; rfl)
      (by simp [ObservedData.setField, k1, objects.CommonObjectProperties.decodeField,
        decodeString, vty, vid, vsv, vcr, vmo, vfo, vlo, vob])
  · exact foldlM_omitemptyGoString _ _ _ _ _ (by rintro rfl; rfl)
      (by simp [ObservedData.setField, k2, objects.CommonObjectProperties.decodeField,
        decodeString, vty, vid, vsv, vcr, vmo, vfo, vlo, vob])
  · exact foldlM_omitemptyGoString _ _ _ _ _ (by rintro rfl; rfl)
      (by simp [ObservedData.setField, k3, objects.CommonObjectProperties.decodeField,
        decodeString, vty, vid, vsv, vcr, vmo, vfo, vlo, vob])
  · exact foldlM_omitemptyGoString _ _ _ _ _ (by rintro rfl; rfl)
      (by simp [ObservedData.setField, k4, objects.CommonObjectProperties.decodeField,
        decodeString, vty, vid, vsv, vcr, vmo, vfo, vlo, vob])
  · exact foldlM_omitemptyGoString _ _ _ _ _ (by rintro rfl; rfl)
      (by simp [ObservedData.setField, k5, decodeString, vty, vid, vsv, vcr, vmo, vfo, vlo, vob])
  · exact foldlM_omitemptyGoString _ _ _ _ _ (by rintro rfl; rfl)
      (by simp [ObservedData.setField, k6, decodeString, vty, vid, vsv, vcr, vmo, vfo, vlo, vob])
  · refine foldlM_omitemptyInt _ _ _ _ _ (by rintro rfl; rfl) ?_
    have h1 : -(2:Int)^63 ≤ no := hint.1
    have h2 : no < (2:Int)^63 := hint.2
    have h3 : (-(2:Int)^63 ≤ no ∧ no < (2:Int)^63) := ⟨h1, h2⟩
    simp only [ObservedData.setField, k7, decodeInt, if_pos h3]
    simp
  · exact foldlM_omitemptyGoString _ _ _ _ _ (by rintro rfl; rfl)
      (by simp [ObservedData.setField, k8, decodeString, vty, vid, vsv, vcr, vmo, vfo, vlo, vob])
  · refine foldlM_omitemptyGoStrings _ _ _ _ _ (by intro h; simp [h]) ?_
    intro h
    cases refs with
    | none => exact absurd rfl h
    | some xs =>
      simp [ObservedData.setField, k9, decodeStrings, decodeElems_map_str xs vrefs, h, Slice.toList]

end observeddata

theorem unmarshal_render_grouping (g : grouping.Grouping) :
    grouping.Grouping.unmarshal g.marshal.render
      = grouping.Grouping.decode g.marshal.document := by
  rw [grouping.Grouping.unmarshal, JSON.parse_render]
  rfl

theorem unmarshal_render_observeddata (o : observeddata.ObservedData) :
    observeddata.ObservedData.unmarshal o.marshal.render
      = observeddata.ObservedData.decode o.marshal.document := by
  rw [observeddata.ObservedData.unmarshal, JSON.parse_render]
  rfl

namespace resources

/-- C11: each of the six flag setters changes exactly one boolean and no other
field: `SetEnabled`/`SetDisabled` set Enabled to true/false,
`SetHidden`/`SetVisible` set Hidden to true/false, `SetCanRead` sets CanRead
to true, `SetCanWrite` sets CanWrite to true, whatever the value before;
`GetCanRead` and `GetCanWrite` return the current flag (they have no effect
on the receiver). -/
theorem C11_setters_frame (c : CollectionType) :
    (c.SetEnabled).1 = { c with Enabled := true } ∧
    (c.SetDisabled).1 = { c with Enabled := false } ∧
    (c.SetHidden).1 = { c with Hidden := true } ∧
    (c.SetVisible).1 = { c with Hidden := false } ∧
    (c.SetCanRead).1 = { c with CanRead := true } ∧
    (c.SetCanWrite).1 = { c with CanWrite := true } ∧
    c.GetCanRead = c.CanRead ∧ c.GetCanWrite = c.CanWrite :=
  ⟨rfl, rfl, rfl, rfl, rfl, rfl, rfl, rfl⟩

/-- C12: for every registry state and every Collection c, `AddCollection(c)`
returns the previous length of the list as index with a nil error, the entry
at that index is c afterwards and the entries before it are unchanged; adding
the same c twice gives two equal entries at consecutive indices. -/
theorem C12_addCollection_index (ezt : CollectionsType) (c : CollectionType) :
    (ezt.AddCollection c).2 = (ezt.Collections.len, none) ∧
    (ezt.AddCollection c).1.Collections.index (ezt.AddCollection c).2.1 = some c ∧
    (ezt.AddCollection c).1.Collections.toList = ezt.Collections.toList ++ [c] ∧
    ((ezt.AddCollection c).1.AddCollection c).2.1 = (ezt.AddCollection c).2.1 + 1 ∧
    ((ezt.AddCollection c).1.AddCollection c).1.Collections.toList
      = ezt.Collections.toList ++ [c, c] ∧
    ((ezt.AddCollection c).1.AddCollection c).1.Collections.index (ezt.Collections.len)
      = some c ∧
    ((ezt.AddCollection c).1.AddCollection c).1.Collections.index (ezt.Collections.len + 1)
      = some c := by
  have h1 := AddCollection_some ezt c
  have h2 := AddCollection_position ezt c
  have h3 := AddCollection_some (ezt.AddCollection c).1 c
  have h4 := AddCollection_position (ezt.AddCollection c).1 c
  rw [h1] at h3 h4
  refine ⟨h2, ?_, ?_, ?_, ?_, ?_, ?_⟩
  · simp [h1, h2, Slice.index, Slice.toList, Slice.len]
  · simp [h1, Slice.toList]
  · simp [h2, h4, Slice.len, Slice.toList]
  · simp [h3, Slice.toList]
  · simp only [h3, Slice.index, Slice.len]
    generalize ezt.Collections.toList = l
    induction l with
    | nil => simp [Slice.toList]
    | cons x xs ih => simpa [Slice.toList] using ih
  · simp only [h3, Slice.index, Slice.len]
    generalize ezt.Collections.toList = l
    induction l with
    | nil => simp [Slice.toList]
    | cons x xs ih => simpa [Slice.toList] using ih

/-- C13: `InitCollections` (and `NewCollections`) returns a registry without
entries whose list is nil, and `InitCollection` (and `NewCollection`) returns
the zero Collection: the four flags false, DateAdded, ID, Title and
Description empty, MediaTypes nil. -/
theorem C13_init_zero :
    InitCollections.Collections = none ∧ InitCollections.Collections.len = 0 ∧
    InitCollections.Collections.isNil = true ∧
    NewCollections = InitCollections ∧ NewCollection = InitCollection ∧
    InitCollection
      = { DateAdded := "", Enabled := false, Hidden := false,
          IDPropertyType := { ID := "" }, TitlePropertyType := { Title := "" },
          DescriptionPropertyType := { Description := "" },
          CanRead := false, CanWrite := false, MediaTypes := none } ∧
    InitCollection.MediaTypes.isNil = true :=
  ⟨rfl, rfl, rfl, rfl, rfl, rfl, rfl⟩

/-- C14: the serialized form of a registry has the member `collections` if and
only if the registry has at least one entry, and a fresh registry serializes
to the empty object; the serialized form of a Collection has the member
`media_types` if and only if its list of media types is not empty, which for
a Collection built from a fresh one by `AddMediaType` calls means that at
least one call was made. -/
theorem C14_omitempty_lists (ezt : CollectionsType) (c : CollectionType) (ss : List String) :
    ("collections" ∈ ezt.marshal.keys ↔ ezt.Collections.len ≠ 0) ∧
    InitCollections.marshal = JSON.obj [] ∧
    InitCollections.marshal.render = "\x7b\x7d" ∧
    ("media_types" ∈ c.marshal.keys ↔ c.MediaTypes.len ≠ 0) ∧
    ("media_types" ∈ (InitCollection.addMediaTypes ss).1.marshal.keys ↔ ss ≠ []) := by
  have hm : ∀ d : CollectionType, "media_types" ∈ d.marshal.keys ↔ d.MediaTypes.len ≠ 0 := by
    intro d
    simp only [CollectionType.marshal, CollectionType.marshalFields, JSON.keys,
      omitemptyString, omitemptyStrings]
    split_ifs <;> simp [*]
  refine ⟨?_, rfl, by decide, hm c, ?_⟩
  · simp only [CollectionsType.marshal, CollectionsType.marshalFields, JSON.keys]
    split_ifs with h <;> simp [h]
  · rw [hm]
    have h := addMediaTypes_toList ss InitCollection
    have h0 : InitCollection.MediaTypes.toList = [] := rfl
    rw [h0] at h
    simp [Slice.len, h]

/-- C15: for all strings cid and sid, `NewCollectionRecord(cid, sid)` returns
a nil error and a record whose CollectionID is cid and whose STIXID is sid,
unchanged; two calls return equal records exactly when both arguments are
equal. -/
theorem C15_newCollectionRecord (cid sid cid2 sid2 : String) :
    (NewCollectionRecord cid sid).2 = none ∧
    (NewCollectionRecord cid sid).1 = { CollectionID := cid, STIXID := sid } ∧
    (NewCollectionRecord cid sid).1.CollectionID = cid ∧
    (NewCollectionRecord cid sid).1.STIXID = sid ∧
    ((NewCollectionRecord cid sid).1 = (NewCollectionRecord cid2 sid2).1
      ↔ cid = cid2 ∧ sid = sid2) := by
  refine ⟨rfl, rfl, rfl, rfl, ?_⟩
  simp [NewCollectionRecord, InitCollectionRecord, CollectionRecordType.zero]

end resources

/-! ## Order of the serialized fields -/

theorem sublist_keys_omitemptyGoString (key : String) (s : GoString) :
    ((omitemptyGoString key s).map Prod.fst).Sublist [key] := by
  unfold omitemptyGoString
  split_ifs <;> simp

theorem sublist_keys_omitemptyInt (key : String) (n : Int) :
    ((omitemptyInt key n).map Prod.fst).Sublist [key] := by
  unfold omitemptyInt
  split_ifs <;> simp

theorem sublist_keys_omitemptyGoStrings (key : String) (s : Slice GoString) :
    ((omitemptyGoStrings key s).map Prod.fst).Sublist [key] := by
  unfold omitemptyGoStrings
  split_ifs <;> simp

/-- Counterexample to C16 as stated: an ObservedData with `FirstObserved` (a
field of its own) and the reference list of the embedded `ObjectRefsProperty`
set serializes `first_observed` before `object_refs`: the field of the
embedded group does not come before the own field. -/
theorem C16_counterexample :
    (observeddata.ObservedData.marshal
      ({ CommonObjectProperties :=
          { ObjectType := "observed-data", ID := "", SpecVersion := "", Created := "",
            Modified := "" },
         FirstObserved := "2020-01-01T00:00:00Z", LastObserved := "", NumberObserved := 0,
         Objects := "", ObjectRefsProperty := { ObjectRefs := some ["ipv4-addr--1"] } }
      : observeddata.ObservedData)).keys
      = ["type", "first_observed", "object_refs"] ∧
    (observeddata.ObservedData.marshal
      ({ CommonObjectProperties :=
          { ObjectType := "observed-data", ID := "", SpecVersion := "", Created := "",
            Modified := "" },
         FirstObserved := "2020-01-01T00:00:00Z", LastObserved := "", NumberObserved := 0,
         Objects := "", ObjectRefsProperty := { ObjectRefs := some ["ipv4-addr--1"] } }
      : observeddata.ObservedData)).render
      = "\x7b\"type\":\"observed-data\",\"first_observed\":\"2020-01-01T00:00:00Z\",\"object_refs\":[\"ipv4-addr--1\"]\x7d" ∧
    ¬ ((observeddata.ObservedData.marshal
      ({ CommonObjectProperties :=
          { ObjectType := "observed-data", ID := "", SpecVersion := "", Created := "",
            Modified := "" },
         FirstObserved := "2020-01-01T00:00:00Z", LastObserved := "", NumberObserved := 0,
         Objects := "", ObjectRefsProperty := { ObjectRefs := some ["ipv4-addr--1"] } }
      : observeddata.ObservedData)).keys.indexOf "object_refs"
        < (observeddata.ObservedData.marshal
      ({ CommonObjectProperties :=
          { ObjectType := "observed-data", ID := "", SpecVersion := "", Created := "",
            Modified := "" },
         FirstObserved := "2020-01-01T00:00:00Z", LastObserved := "", NumberObserved := 0,
         Objects := "", ObjectRefsProperty := { ObjectRefs := some ["ipv4-addr--1"] } }
      : observeddata.ObservedData)).keys.indexOf "first_observed") := by
  refine ⟨by decide, by decide, by decide⟩

/-- C16, amended: the members of the serialized form follow the declaration
order of the struct.  For a Grouping: the common object properties, then
`name` and `description` of the embedded groups, then the own `context` and
`object_refs`.  For an ObservedData: the common object properties, then the
own `first_observed`, `last_observed`, `number_observed` and `objects`, then
`object_refs` of the group embedded last. -/
theorem C16_declaration_order (g : grouping.Grouping) (o : observeddata.ObservedData) :
    (∃ rest : List String,
      g.marshal.keys = (JSON.obj g.CommonObjectProperties.marshalFields).keys ++ rest ∧
      rest.Sublist ["name", "description", "context", "object_refs"]) ∧
    (∃ rest : List String,
      o.marshal.keys = (JSON.obj o.CommonObjectProperties.marshalFields).keys ++ rest ∧
      rest.Sublist
        ["first_observed", "last_observed", "number_observed", "objects", "object_refs"]) := by
  constructor
  · refine ⟨(omitemptyGoString "name" g.NameProperty.Name ++
      omitemptyGoString "description" g.DescriptionProperty.Description ++
      omitemptyGoString "context" g.Context ++
      omitemptyGoStrings "object_refs" g.ObjectRefs).map Prod.fst, ?_, ?_⟩
    · simp [grouping.Grouping.marshal, grouping.Grouping.marshalFields, JSON.keys]
    · rw [List.map_append, List.map_append, List.map_append]
      exact (((sublist_keys_omitemptyGoString _ _).append
        (sublist_keys_omitemptyGoString _ _)).append
        (sublist_keys_omitemptyGoString _ _)).append (sublist_keys_omitemptyGoStrings _ _)
  · refine ⟨(omitemptyGoString "first_observed" o.FirstObserved ++
      omitemptyGoString "last_observed" o.LastObserved ++
      omitemptyInt "number_observed" o.NumberObserved ++
      omitemptyGoString "objects" o.Objects ++
      omitemptyGoStrings "object_refs" o.ObjectRefsProperty.ObjectRefs).map Prod.fst, ?_, ?_⟩
    · simp [observeddata.ObservedData.marshal, observeddata.ObservedData.marshalFields,
        JSON.keys]
    · rw [List.map_append, List.map_append, List.map_append, List.map_append]
      exact ((((sublist_keys_omitemptyGoString _ _).append
        (sublist_keys_omitemptyGoString _ _)).append
        (sublist_keys_omitemptyInt _ _)).append
        (sublist_keys_omitemptyGoString _ _)).append (sublist_keys_omitemptyGoStrings _ _)

/-! ## The access-policy state machine and the growth of the registry -/

namespace resources

theorem call_CanRead (m : FlagSetter) (c : CollectionType) (h : c.CanRead = true) :
    (m.call c).CanRead = true := by
  cases m <;> first | exact h | rfl

theorem call_CanWrite (m : FlagSetter) (c : CollectionType) (h : c.CanWrite = true) :
    (m.call c).CanWrite = true := by
  cases m <;> first | exact h | rfl

theorem callSetters_CanRead (ms : List FlagSetter) : ∀ c : CollectionType,
    c.CanRead = true → (c.callSetters ms).CanRead = true := by
  induction ms with
  | nil => intro c h; exact h
  | cons m ms ih => intro c h; exact ih (m.call c) (call_CanRead m c h)

theorem callSetters_CanWrite (ms : List FlagSetter) : ∀ c : CollectionType,
    c.CanWrite = true → (c.callSetters ms).CanWrite = true := by
  induction ms with
  | nil => intro c h; exact h
  | cons m ms ih => intro c h; exact ih (m.call c) (call_CanWrite m c h)

/-- Counterexample to C17 as stated: no sequence of flag setters takes a
Collection whose CanRead is true to the combination with all four flags
false, since no setter turns CanRead off. -/
theorem C17_counterexample :
    ¬ ∃ ms : List FlagSetter,
      (({ CollectionType.zero with CanRead := true } : CollectionType).callSetters ms).flags
        = (false, false, false, false) := by
  rintro ⟨ms, h⟩
  have h1 := callSetters_CanRead ms { CollectionType.zero with CanRead := true } rfl
  have h2 : (({ CollectionType.zero with CanRead := true } : CollectionType).callSetters
      ms).CanRead = false := congrArg (fun t => t.2.2.1) h
  rw [h1] at h2
  exact Bool.noConfusion h2

/-- C17, amended: Enabled and Hidden can be taken to any value from any
state, CanRead and CanWrite can only be turned on.  A combination of the four
flags is reached from a Collection by some finite sequence of flag setters if
and only if it keeps CanRead true when it is true and CanWrite true when it is
true; and no state is terminal: from every state some setter leads to a
different combination. -/
theorem C17_reachable (c : CollectionType) (e h r w : Bool) :
    ((∃ ms : List FlagSetter, (c.callSetters ms).flags = (e, h, r, w))
      ↔ (c.CanRead || r) = r ∧ (c.CanWrite || w) = w) ∧
    (∃ m : FlagSetter, (m.call c).flags ≠ c.flags) := by
  refine ⟨⟨?_, ?_⟩, ?_⟩
  · rintro ⟨ms, hms⟩
    have hr : (c.callSetters ms).CanRead = r := congrArg (fun t => t.2.2.1) hms
    have hw : (c.callSetters ms).CanWrite = w := congrArg (fun t => t.2.2.2) hms
    constructor
    · cases hc : c.CanRead with
      | false => simp
      | true => rw [← hr, callSetters_CanRead ms c hc]; rfl
    · cases hc : c.CanWrite with
      | false => simp
      | true => rw [← hw, callSetters_CanWrite ms c hc]; rfl
  · rintro ⟨hr, hw⟩
    refine ⟨[if e then FlagSetter.SetEnabled else FlagSetter.SetDisabled,
      if h then FlagSetter.SetHidden else FlagSetter.SetVisible] ++
      (if r then [FlagSetter.SetCanRead] else []) ++
      (if w then [FlagSetter.SetCanWrite] else []), ?_⟩
    obtain ⟨d, en, hi, i, t, ds, cr, cw, m⟩ := c
    cases e <;> cases h <;> cases r <;> cases w <;> cases cr <;> cases cw <;>
      simp_all [CollectionType.flags, CollectionType.callSetters, FlagSetter.call,
        CollectionType.SetEnabled, CollectionType.SetDisabled, CollectionType.SetHidden,
        CollectionType.SetVisible, CollectionType.SetCanRead, CollectionType.SetCanWrite]
  · obtain ⟨d, en, hi, i, t, ds, cr, cw, m⟩ := c
    cases en
    · exact ⟨FlagSetter.SetEnabled, by simp [CollectionType.flags, FlagSetter.call,
        CollectionType.SetEnabled]⟩
    · exact ⟨FlagSetter.SetDisabled, by simp [CollectionType.flags, FlagSetter.call,
        CollectionType.SetDisabled]⟩

theorem runCalls_toList (ks : List RegistryCall) : ∀ ezt : CollectionsType,
    (ezt.runCalls ks).Collections.toList
      = ezt.Collections.toList ++ ks.map RegistryCall.entry := by
  induction ks with
  | nil => intro ezt; simp [CollectionsType.runCalls]
  | cons k ks ih =>
    intro ezt
    rw [CollectionsType.runCalls, ih]
    cases k with
    | AddCollection o =>
      simp [RegistryCall.run, RegistryCall.entry, AddCollection_toList]
    | GetNewCollection =>
      simp [RegistryCall.run, RegistryCall.entry, GetNewCollection_some, Slice.toList,
        InitCollection]

/-- C18: for every registry state and every finite sequence of
`AddCollection` and `GetNewCollection` calls, the list afterwards is the list
before followed by one entry per call (so the list before is an initial
segment of it, unchanged), and the length grows by the number of calls. -/
theorem C18_registry_grows (ezt : CollectionsType) (ks : List RegistryCall) :
    (ezt.runCalls ks).Collections.toList
      = ezt.Collections.toList ++ ks.map RegistryCall.entry ∧
    (ezt.runCalls ks).Collections.toList.take ezt.Collections.len
      = ezt.Collections.toList ∧
    (ezt.runCalls ks).Collections.len = ezt.Collections.len + ks.length := by
  have h := runCalls_toList ks ezt
  refine ⟨h, ?_, ?_⟩
  · rw [h]
    simp [Slice.len]
  · simp [Slice.len, h]

/-- C19: lazy initialisation is not observable.  For every Collection c,
`AddCollection(c)` and `GetNewCollection` on a registry with a nil list give
the same results (index or reference, error), the same registry and the same
serialized form as on a registry whose list is `make([]CollectionType, 0)`;
`AddMediaType` on a Collection with a nil list of media types gives the same
as on one with an empty list. -/
theorem C19_lazy_init_unobservable (c : CollectionType) (s : String) :
    ({ Collections := none } : CollectionsType).AddCollection c
      = ({ Collections := Slice.make0 } : CollectionsType).AddCollection c ∧
    ({ Collections := none } : CollectionsType).GetNewCollection
      = ({ Collections := Slice.make0 } : CollectionsType).GetNewCollection ∧
    (({ Collections := none } : CollectionsType).AddCollection c).1.Collections.toList = [c] ∧
    (({ Collections := none } : CollectionsType).AddCollection c).2.1 = 0 ∧
    (({ Collections := none } : CollectionsType).AddCollection c).1.marshal.render
      = (({ Collections := Slice.make0 } : CollectionsType).AddCollection c).1.marshal.render ∧
    (({ Collections := none } : CollectionsType).GetNewCollection).1.marshal.render
      = (({ Collections := Slice.make0 } : CollectionsType).GetNewCollection).1.marshal.render ∧
    ({ c with MediaTypes := none } : CollectionType).AddMediaType s
      = ({ c with MediaTypes := Slice.make0 } : CollectionType).AddMediaType s ∧
    (({ c with MediaTypes := none } : CollectionType).AddMediaType s).1.MediaTypes
      = some [s] :=
  ⟨rfl, rfl, rfl, rfl, rfl, rfl, rfl, rfl⟩

/-- C20: for every registry state, the registry after `GetNewCollection()` is
the registry after `AddCollection(*InitCollection())`, the returned reference
points at the index that `AddCollection` returns, the errors agree, and the
entry behind the reference is the value of `InitCollection()`. -/
theorem C20_getNew_is_add_fresh (ezt : CollectionsType) :
    (ezt.GetNewCollection).1 = (ezt.AddCollection InitCollection).1 ∧
    (ezt.GetNewCollection).2.1.index = (ezt.AddCollection InitCollection).2.1 ∧
    (ezt.GetNewCollection).2.2 = (ezt.AddCollection InitCollection).2.2 ∧
    (ezt.GetNewCollection).1.load (ezt.GetNewCollection).2.1 = some InitCollection ∧
    (ezt.AddCollection InitCollection).1.Collections.index
      (ezt.AddCollection InitCollection).2.1 = some InitCollection := by
  have h1 := GetNewCollection_some ezt
  have h2 := GetNewCollection_ref ezt
  have h3 := AddCollection_some ezt InitCollection
  have h4 := AddCollection_position ezt InitCollection
  refine ⟨rfl, rfl, rfl, ?_, ?_⟩
  · simp [CollectionsType.load, h1, h2, Slice.index, Slice.len, Slice.toList, InitCollection]
  · simp [h3, h4, Slice.index, Slice.len, Slice.toList]

end resources
